import Mathlib

/-!
Shallow embedding of the aurelia runtime event-delegation subsystem
(`src/packages/runtime-html/src/observation/event-manager.ts`) and the
slot/projection subsystem
(`src/packages/runtime-html/dist/native-modules/resources/custom-elements/au-slot.js`).

DOM nodes / event targets are modelled as natural-number identifiers.
The mutable JS heap is made explicit: trackers live in an association
list keyed by an allocation id, and the native `addEventListener`
subscriptions attached at publishers are modelled as a list of
`NativeSub` records (a native subscription is identified, as in the DOM,
by (publisher, event type, listener, capture); the bound `handleEvent`
listener closure of a tracker is identified by the tracker's id).
-/

namespace Aurelia

/-- Association list get: first entry whose key matches, like `Map.get`.
Both JS `Map`s and plain-object records are modelled this way. -/
def assocGet {κ : Type} [DecidableEq κ] {α : Type} : List (κ × α) → κ → Option α
  | [], _ => none
  | (k', v) :: rest, k => if k' = k then some v else assocGet rest k

/-- Association list set: replace the first entry whose key matches,
append otherwise, like `Map.set` / record assignment. -/
def assocSet {κ : Type} [DecidableEq κ] {α : Type} : List (κ × α) → κ → α → List (κ × α)
  | [], k, v => [(k, v)]
  | (k', v') :: rest, k, v =>
      if k' = k then (k, v) :: rest else (k', v') :: assocSet rest k v

/-- `AddEventListenerOptions` — only `capture` is ever consulted by the code. -/
structure AddEventListenerOptions where
  capture : Bool
deriving DecidableEq, Repr

/-- `const defaultOptions: AddEventListenerOptions = { capture: false }` -/
def defaultOptions : AddEventListenerOptions := ⟨false⟩

/-- A DOM event: `composedPath()` is precomputed as the list of node ids,
target first, root last (native order); `cancelBubble` is the mutable flag. -/
structure Event where
  composedPath : List Nat
  cancelBubble : Bool

/-- `EventListenerOrEventListenerObject`: either a callable or an object with
a `handleEvent` method.  The behaviour of a listener is modelled as a state
transformer on the event (it may set `cancelBubble`). -/
inductive EvtListener where
  | fn (f : Event → Event)
  | handlerObj (f : Event → Event)

/-- `typeof listener === 'function' ? listener(event) : listener.handleEvent(event)` -/
def invokeListener : EvtListener → Event → Event
  | .fn f, e => f e
  | .handlerObj f, e => f e

/-- A per-target lookup record `Record<string, EventListenerOrEventListenerObject
| undefined>`: event name to optional listener; `undefined` is `none`. -/
def LookupRec : Type := List (String × Option EvtListener)

/-- Reading `lookup[eventName]`: an absent key and a key explicitly set to
`undefined` both read as `undefined`. -/
def recGet (r : LookupRec) (k : String) : Option EvtListener :=
  match assocGet r k with
  | some v => v
  | none => none

/-- Writing `lookup[key] = v` (with `v = none` for `void 0`). -/
def recSet (r : LookupRec) (k : String) (v : Option EvtListener) : LookupRec :=
  assocSet r k v

/-- One `ListenerTracker` object.  `count`, `captureLookups` and
`bubbleLookups` are its mutable fields; the rest is fixed at construction. -/
structure ListenerTracker where
  publisher : Nat
  eventName : String
  options : AddEventListenerOptions
  count : Int
  captureLookups : List (Nat × LookupRec)
  bubbleLookups : List (Nat × LookupRec)

/-- A native listener subscription attached at a publisher, as identified by
the DOM: (publisher, event type, listener closure, capture flag).  The bound
`handleEvent` closure is unique per tracker, so it is identified by the
tracker's heap id. -/
structure NativeSub where
  publisher : Nat
  eventName : String
  trackerId : Nat
  capture : Bool
deriving DecidableEq, Repr

/-- The native subscription a tracker attaches:
`publisher.addEventListener(eventName, handleEvent, options)`. -/
def mkNative (tid : Nat) (t : ListenerTracker) : NativeSub :=
  ⟨t.publisher, t.eventName, tid, t.options.capture⟩

/-- The whole mutable state of an `EventManager` together with the native
listener lists of all publishers.  `trackerMaps` is the
`Record<string, Map<EventTarget, ListenerTracker>>`; trackers are heap
objects referenced by id. `nextId` is the allocator for tracker ids. -/
structure EMState where
  trackerMaps : List (String × List (Nat × Nat))
  trackers : List (Nat × ListenerTracker)
  native : List NativeSub
  nextId : Nat

/-- A freshly constructed `EventManager` against a DOM with no native
subscriptions. -/
def emEmpty : EMState := ⟨[], [], [], 0⟩

/-- Replace tracker `tid` by `f` applied to it (mutation of a heap object). -/
def modifyTracker (st : EMState) (tid : Nat) (f : ListenerTracker → ListenerTracker) : EMState :=
  match assocGet st.trackers tid with
  | none => st
  | some t => { st with trackers := assocSet st.trackers tid (f t) }

/-- `ListenerTracker.increment`: `if (++this.count === 1) addEventListener`. -/
def trackerIncrement (st : EMState) (tid : Nat) : EMState :=
  match assocGet st.trackers tid with
  | none => st
  | some t =>
      let st' := { st with trackers := assocSet st.trackers tid { t with count := t.count + 1 } }
      if t.count + 1 = 1 then { st' with native := st'.native ++ [mkNative tid t] } else st'

/-- `ListenerTracker.decrement`: `if (--this.count === 0) removeEventListener`. -/
def trackerDecrement (st : EMState) (tid : Nat) : EMState :=
  match assocGet st.trackers tid with
  | none => st
  | some t =>
      let st' := { st with trackers := assocSet st.trackers tid { t with count := t.count - 1 } }
      if t.count - 1 = 0 then { st' with native := st'.native.erase (mkNative tid t) } else st'

/-- `ListenerTracker.dispose`: force-unsubscribe when `count > 0`, reset the
count, and clear both per-target lookup maps. -/
def trackerDispose (st : EMState) (tid : Nat) : EMState :=
  match assocGet st.trackers tid with
  | none => st
  | some t =>
      let c' : Int := if 0 < t.count then 0 else t.count
      let nat' := if 0 < t.count then st.native.erase (mkNative tid t) else st.native
      { st with
          trackers := assocSet st.trackers tid
            { t with count := c', captureLookups := [], bubbleLookups := [] },
          native := nat' }

/-- `ListenerTracker.getLookup` (allocation half): ensure the phase-selected
map has a record for `target`, creating an empty one on first access. -/
def ensureLookup (t : ListenerTracker) (target : Nat) : ListenerTracker :=
  if t.options.capture then
    match assocGet t.captureLookups target with
    | some _ => t
    | none => { t with captureLookups := assocSet t.captureLookups target [] }
  else
    match assocGet t.bubbleLookups target with
    | some _ => t
    | none => { t with bubbleLookups := assocSet t.bubbleLookups target [] }

/-- Write `lookup[eventName] = v` through the record for `target` in the
tracker's phase-selected map (no-op when the record is absent, which in the
source corresponds to a write to a record no longer reachable from the
tracker). -/
def trackerSetListener (st : EMState) (tid : Nat) (target : Nat) (en : String)
    (v : Option EvtListener) : EMState :=
  modifyTracker st tid fun t =>
    if t.options.capture then
      match assocGet t.captureLookups target with
      | none => t
      | some r => { t with captureLookups := assocSet t.captureLookups target (recSet r en v) }
    else
      match assocGet t.bubbleLookups target with
      | none => t
      | some r => { t with bubbleLookups := assocSet t.bubbleLookups target (recSet r en v) }

/-- A `DelegateSubscription`: references the tracker and the lookup record
(identified by the target whose record it is) plus the event name key. -/
structure DelegateSubscription where
  trackerId : Nat
  target : Nat
  eventName : String
deriving DecidableEq, Repr

/-- The `DelegateSubscription` constructor body:
`tracker.increment(); lookup[eventName] = callback;`. -/
def newDelegateSubscription (st : EMState) (tid : Nat) (target : Nat) (en : String)
    (listener : EvtListener) : EMState × DelegateSubscription :=
  let st1 := trackerIncrement st tid
  (trackerSetListener st1 tid target en (some listener), ⟨tid, target, en⟩)

/-- `DelegateSubscription.dispose`:
`this.tracker.decrement(); this.lookup[this.eventName] = void 0;`. -/
def subDispose (st : EMState) (s : DelegateSubscription) : EMState :=
  let st1 := trackerDecrement st s.trackerId
  trackerSetListener st1 s.trackerId s.target s.eventName none

/-- `EventManager.addEventListener(publisher, target, eventName, listener,
options)`: get-or-create the per-event tracker map, get-or-create the
tracker for the publisher, ensure the target's lookup record, construct a
`DelegateSubscription`. -/
def addEventListener (st : EMState) (publisher target : Nat) (eventName : String)
    (listener : EvtListener) (options : Option AddEventListenerOptions) :
    EMState × DelegateSubscription :=
  let p : EMState × List (Nat × Nat) :=
    match assocGet st.trackerMaps eventName with
    | some tm => (st, tm)
    | none => ({ st with trackerMaps := assocSet st.trackerMaps eventName [] }, [])
  let st0 := p.1
  let tm := p.2
  match assocGet tm publisher with
  | some tid =>
      let st2 := modifyTracker st0 tid (fun t => ensureLookup t target)
      newDelegateSubscription st2 tid target eventName listener
  | none =>
      let tid := st0.nextId
      let t0 : ListenerTracker :=
        ⟨publisher, eventName, options.getD defaultOptions, 0, [], []⟩
      let st1 : EMState :=
        { st0 with
            trackerMaps := assocSet st0.trackerMaps eventName (assocSet tm publisher tid),
            trackers := st0.trackers ++ [(tid, t0)],
            nextId := st0.nextId + 1 }
      let st2 := modifyTracker st1 tid (fun t => ensureLookup t target)
      newDelegateSubscription st2 tid target eventName listener

/-- All tracker ids registered in the tracker maps, in iteration order. -/
def registeredTids (st : EMState) : List Nat :=
  st.trackerMaps.flatMap (fun p => p.2.map Prod.snd)

/-- `EventManager.dispose`: for every event name, dispose every tracker in
its map, then clear the map (the record keeps its keys, mapping each to an
emptied map). -/
def emDispose (st : EMState) : EMState :=
  let st1 := (registeredTids st).foldl trackerDispose st
  { st1 with trackerMaps := st1.trackerMaps.map (fun p => (p.1, ([] : List (Nat × Nat)))) }

/-- The dispatch walk of `ListenerTracker.handleEvent`: for each node of the
(already phase-ordered) path, skip when there is no lookup record or no
entry for the event name, otherwise invoke the listener and stop the walk
when `cancelBubble` is set.  Returns the event after all invocations and the
ordered list of nodes whose listener was invoked. -/
def handleEventLoop (eventName : String) (lookups : List (Nat × LookupRec)) :
    List Nat → Event → List Nat → Event × List Nat
  | [], ev, acc => (ev, acc.reverse)
  | target :: rest, ev, acc =>
      match assocGet lookups target with
      | none => handleEventLoop eventName lookups rest ev acc
      | some lookup =>
          match recGet lookup eventName with
          | none => handleEventLoop eventName lookups rest ev acc
          | some listener =>
              let ev' := invokeListener listener ev
              if ev'.cancelBubble then (ev', (target :: acc).reverse)
              else handleEventLoop eventName lookups rest ev' (target :: acc)

/-- `ListenerTracker.handleEvent`: select the phase lookup map, reverse the
composed path for capture phase, then walk. -/
def ListenerTracker.handleEvent (t : ListenerTracker) (ev : Event) : Event × List Nat :=
  let lookups := if t.options.capture then t.captureLookups else t.bubbleLookups
  let path := if t.options.capture then ev.composedPath.reverse else ev.composedPath
  handleEventLoop t.eventName lookups path ev []

/-! ## Direct `EventSubscriber` (non-delegated) -/

/-- A listener attached directly on a node, as the DOM identifies it for
`removeEventListener`: (node, event type, handler).  Handlers are opaque
identities here; the subscriber never invokes them. -/
structure DirectSub where
  node : Nat
  eventName : String
  handler : Nat
deriving DecidableEq, Repr

/-- The DOM's `addEventListener` on a node: a no-op when an identical
(node, type, handler) subscription is already attached. -/
def domAdd (d : List DirectSub) (s : DirectSub) : List DirectSub :=
  if s ∈ d then d else d ++ [s]

/-- The DOM's `removeEventListener` on a node: detach the matching
subscription if present. -/
def domRemove (d : List DirectSub) (s : DirectSub) : List DirectSub :=
  d.erase s

/-- An `EventSubscriber`: a fixed event-name list plus the mutable
`target` / `handler` fields (`null` as `none`). -/
structure EventSubscriber where
  events : List String
  target : Option Nat
  handler : Option Nat

/-- `new EventSubscriber(dom, events)`. -/
def EventSubscriber.make (events : List String) : EventSubscriber := ⟨events, none, none⟩

/-- `EventSubscriber.subscribe(node, callbackOrListener)`: overwrite the
stored target and handler, then attach the handler for every configured
event name directly on the node. -/
def EventSubscriber.subscribe (es : EventSubscriber) (d : List DirectSub)
    (node : Nat) (h : Nat) : EventSubscriber × List DirectSub :=
  ({ es with target := some node, handler := some h },
   es.events.foldl (fun acc en => domAdd acc ⟨node, en, h⟩) d)

/-- `EventSubscriber.dispose`: remove the handler for every configured event
name from the stored target, then null the stored references.  (The source
reads `this.target` / `this.handler` unconditionally; the embedding covers
the subscribed state, where both are present.) -/
def EventSubscriber.dispose (es : EventSubscriber) (d : List DirectSub) :
    EventSubscriber × List DirectSub :=
  match es.target, es.handler with
  | some node, some h =>
      ({ es with target := none, handler := none },
       es.events.foldl (fun acc en => domRemove acc ⟨node, en, h⟩) d)
  | _, _ => ({ es with target := none, handler := none }, d)

/-! ## au-slot: projection provider and `AuSlot` scope selection -/

/-- A binding scope: an id plus the parent chain (`scope.parentScope`). -/
inductive Scope where
  | mk (id : Nat) (parent : Option Scope)

/-- `scope.parentScope`. -/
def Scope.parentScope : Scope → Option Scope
  | .mk _ p => p

/-- `AuSlotContentType` enum. -/
inductive AuSlotContentType where
  | Projection
  | Fallback
deriving DecidableEq, Repr

/-- `RegisteredProjections(scope, projections)`: the scope the projections
were authored in plus the slot-name-to-content mapping (content is opaque,
identified by id). -/
structure RegisteredProjections where
  scope : Scope
  projections : List (String × Nat)

/-- The module-level `projectionMap : WeakMap<instruction, RegisteredProjections>`.
Render instructions are opaque identities (ids). -/
def PMap : Type := List (Nat × RegisteredProjections)

/-- `ProjectionProvider` has no instance fields; both methods read and write
the module-level `projectionMap`. -/
structure ProjectionProvider where
  mk ::

/-- `ProjectionProvider.registerProjections(projections, scope)`: for each
(instruction, projections) entry, store `RegisteredProjections(scope, $projections)`
keyed by the instruction. -/
def ProjectionProvider.registerProjections (_p : ProjectionProvider) (m : PMap)
    (projections : List (Nat × List (String × Nat))) (scope : Scope) : PMap :=
  projections.foldl (fun acc q => assocSet acc q.1 ⟨scope, q.2⟩) m

/-- `ProjectionProvider.getProjectionFor(instruction)`:
`projectionMap.get(instruction) ?? null`. -/
def ProjectionProvider.getProjectionFor (_p : ProjectionProvider) (m : PMap)
    (instruction : Nat) : Option RegisteredProjections :=
  assocGet m instruction

/-- The `IViewFactory` data `AuSlot` consults: `contentType` and
`projectionScope`. -/
structure ViewFactory where
  contentType : AuSlotContentType
  projectionScope : Option Scope

/-- The `AuSlot` fields relevant to scope selection. -/
structure AuSlot where
  isProjection : Bool
  outerScope : Option Scope
  hostScope : Option Scope

/-- The `AuSlot` constructor: `isProjection = factory.contentType === Projection`,
`outerScope = factory.projectionScope`, `hostScope = null`. -/
def AuSlot.make (factory : ViewFactory) : AuSlot :=
  ⟨factory.contentType = AuSlotContentType.Projection, factory.projectionScope, none⟩

/-- `AuSlot.binding`: `this.hostScope = this.$controller.scope.parentScope`. -/
def AuSlot.binding (a : AuSlot) (controllerScope : Scope) : AuSlot :=
  { a with hostScope := controllerScope.parentScope }

/-- The scope arguments `AuSlot.attaching` passes to `view.activate`:
the binding scope is `this.outerScope ?? this.hostScope`, and `this.hostScope`
is passed as the host scope. -/
structure ActivateArgs where
  bindingScope : Option Scope
  hostScope : Option Scope

/-- `AuSlot.attaching`:
`view.activate(initiator, $controller, flags, outerScope ?? hostScope, hostScope)`. -/
def AuSlot.attaching (a : AuSlot) : ActivateArgs :=
  ⟨match a.outerScope with
    | some s => some s
    | none => a.hostScope,
   a.hostScope⟩

/-! ## Derived scenario operations and invariants -/

/-- A sequence of `addEventListener` calls for the same (publisher, eventName,
options) and listener, one per target, collecting the returned subscriptions
in call order. -/
def addAll (pub : Nat) (en : String) (opts : Option AddEventListenerOptions)
    (l : EvtListener) : EMState → List Nat → EMState × List DelegateSubscription
  | st, [] => (st, [])
  | st, tgt :: rest =>
      let p := addEventListener st pub tgt en l opts
      let q := addAll pub en opts l p.1 rest
      (q.1, p.2 :: q.2)

/-- Dispose a list of subscriptions in order. -/
def disposeAll : EMState → List DelegateSubscription → EMState
  | st, [] => st
  | st, s :: rest => disposeAll (subDispose st s) rest

/-- The native subscriptions attached by tracker `tid`. -/
def natFor (st : EMState) (tid : Nat) : List NativeSub :=
  st.native.filter (fun ns => ns.trackerId == tid)

/-- Allocator freshness: every tracker id on the heap is below `nextId`. -/
def Fresh (st : EMState) : Prop :=
  ∀ p ∈ st.trackers, p.1 < st.nextId

/-- The native-subscription invariant: every native subscription belongs to a
live tracker, and each tracker has exactly one native subscription when its
count is positive and none otherwise. -/
def TrackOk (st : EMState) : Prop :=
  (∀ ns ∈ st.native, ∃ t, assocGet st.trackers ns.trackerId = some t) ∧
  (∀ tid t, assocGet st.trackers tid = some t →
    natFor st tid = if 0 < t.count then [mkNative tid t] else [])

/-- Registration: every tracker with positive count is reachable through the
tracker maps under its event name and publisher. -/
def RegOk (st : EMState) : Prop :=
  ∀ tid t, assocGet st.trackers tid = some t → 0 < t.count →
    ∃ tm, assocGet st.trackerMaps t.eventName = some tm ∧ assocGet tm t.publisher = some tid

/-- Consistency of the tracker maps: every map entry points at a live tracker
whose stored event name and publisher match the entry's position. -/
def MapsOk (st : EMState) : Prop :=
  ∀ en tm, assocGet st.trackerMaps en = some tm →
    ∀ pub tid, assocGet tm pub = some tid →
      ∃ t, assocGet st.trackers tid = some t ∧ t.eventName = en ∧ t.publisher = pub

/-- The full state invariant. -/
def EMInv (st : EMState) : Prop :=
  Fresh st ∧ TrackOk st ∧ RegOk st ∧ MapsOk st

/-- States reachable by the `EventManager` API from a fresh manager:
`addEventListener`, disposing a subscription, and `dispose()` itself. -/
inductive Reachable : EMState → Prop where
  | empty : Reachable emEmpty
  | add (st : EMState) (h : Reachable st) (pub target : Nat) (en : String)
      (l : EvtListener) (opts : Option AddEventListenerOptions) :
      Reachable (addEventListener st pub target en l opts).1
  | disp (st : EMState) (h : Reachable st) (s : DelegateSubscription) :
      Reachable (subDispose st s)
  | emdisp (st : EMState) (h : Reachable st) : Reachable (emDispose st)

/-- Characterisation of the single-tracker states arising from repeated
`addEventListener` calls for one (publisher, eventName) from a fresh manager:
one tracker, id 0, with the given fixed fields and count, and the native
subscription present exactly when the count is positive. -/
def ScenState (pub : Nat) (en : String) (o : AddEventListenerOptions) (c : Int)
    (st : EMState) : Prop :=
  st.trackerMaps = [(en, [(pub, 0)])] ∧ st.nextId = 1 ∧
  (∃ cl bl, st.trackers = [(0, ⟨pub, en, o, c, cl, bl⟩)]) ∧
  st.native = if 0 < c then [⟨pub, en, 0, o.capture⟩] else []

/-- A sequence of `registerProjections` calls applied in order. -/
def applyRegs (p : ProjectionProvider) :
    PMap → List (List (Nat × List (String × Nat)) × Scope) → PMap
  | m, [] => m
  | m, (regs, sc) :: rest => applyRegs p (p.registerProjections m regs sc) rest

/-! ## Association list lemmas -/

theorem assocGet_assocSet_self {κ α : Type} [DecidableEq κ] (l : List (κ × α)) (k : κ) (v : α) :
    assocGet (assocSet l k v) k = some v := by
  induction l with
  | nil => simp [assocGet, assocSet]
  | cons p rest ih =>
      obtain ⟨k', v'⟩ := p
      by_cases h : k' = k
      · simp [assocSet, assocGet, h]
      · simp [assocSet, assocGet, h, ih]

theorem assocGet_assocSet_ne {κ α : Type} [DecidableEq κ] (l : List (κ × α)) (k k' : κ) (v : α)
    (h : k' ≠ k) : assocGet (assocSet l k v) k' = assocGet l k' := by
  have h' : ¬ k = k' := fun e => h e.symm
  induction l with
  | nil => simp [assocGet, assocSet, h']
  | cons p rest ih =>
      obtain ⟨k0, v0⟩ := p
      by_cases h0 : k0 = k
      · subst h0
        simp [assocSet, assocGet, h']
      · simp only [assocSet, if_neg h0, assocGet]
        by_cases h1 : k0 = k'
        · simp [h1]
        · simp [h1, ih]

theorem assocGet_mem {κ α : Type} [DecidableEq κ] {l : List (κ × α)} {k : κ} {v : α}
    (h : assocGet l k = some v) : (k, v) ∈ l := by
  induction l with
  | nil => simp [assocGet] at h
  | cons p rest ih =>
      obtain ⟨k', v'⟩ := p
      by_cases h0 : k' = k
      · subst h0
        simp [assocGet] at h
        simp [h]
      · simp only [assocGet, if_neg h0] at h
        exact List.mem_cons_of_mem _ (ih h)

theorem mem_assocSet {κ α : Type} [DecidableEq κ] {l : List (κ × α)} {k : κ} {v : α}
    {p : κ × α} (h : p ∈ assocSet l k v) : p = (k, v) ∨ p ∈ l := by
  induction l with
  | nil => simp [assocSet] at h; simp [h]
  | cons q rest ih =>
      obtain ⟨k', v'⟩ := q
      by_cases h0 : k' = k
      · simp only [assocSet, if_pos h0] at h
        rcases List.mem_cons.mp h with h1 | h1
        · exact Or.inl h1
        · exact Or.inr (List.mem_cons_of_mem _ h1)
      · simp only [assocSet, if_neg h0] at h
        rcases List.mem_cons.mp h with h1 | h1
        · exact Or.inr (by simp [h1])
        · rcases ih h1 with h2 | h2
          · exact Or.inl h2
          · exact Or.inr (List.mem_cons_of_mem _ h2)

theorem assocGet_append_some {κ α : Type} [DecidableEq κ] {l1 : List (κ × α)}
    (l2 : List (κ × α)) {k : κ} {v : α} (h : assocGet l1 k = some v) :
    assocGet (l1 ++ l2) k = some v := by
  induction l1 with
  | nil => simp [assocGet] at h
  | cons p rest ih =>
      obtain ⟨k', v'⟩ := p
      by_cases h0 : k' = k
      · simp [assocGet, h0] at h ⊢
        exact h
      · simp only [assocGet, if_neg h0] at h ⊢
        exact ih h

theorem assocGet_append_none {κ α : Type} [DecidableEq κ] {l1 : List (κ × α)}
    (l2 : List (κ × α)) {k : κ} (h : assocGet l1 k = none) :
    assocGet (l1 ++ l2) k = assocGet l2 k := by
  induction l1 with
  | nil => simp
  | cons p rest ih =>
      obtain ⟨k', v'⟩ := p
      by_cases h0 : k' = k
      · simp [assocGet, h0] at h
      · simp only [assocGet, if_neg h0] at h ⊢
        exact ih h

/-! ## C10 and C8: the projection registry -/

/-- Claim C10: projection registrations live in shared module-level state:
registering an instruction through provider `A` makes the entry visible
through provider `B`'s `getProjectionFor`, and lookup results never depend
on the provider instance queried. -/
theorem projection_registry_shared (A B : ProjectionProvider) (m : PMap) (i : Nat)
    (pr : List (String × Nat)) (sc : Scope) :
    B.getProjectionFor (A.registerProjections m [(i, pr)] sc) i =
      some ⟨sc, pr⟩ ∧
    ∀ j, A.getProjectionFor m j = B.getProjectionFor m j := by
  constructor
  · show assocGet (assocSet m i ⟨sc, pr⟩) i = some _
    exact assocGet_assocSet_self m i ⟨sc, pr⟩
  · intro j
    rfl

theorem registerProjections_getProjectionFor_ne (p : ProjectionProvider) (m : PMap)
    (regs : List (Nat × List (String × Nat))) (sc : Scope) (i : Nat)
    (h : ∀ r ∈ regs, r.1 ≠ i) :
    ProjectionProvider.getProjectionFor p (p.registerProjections m regs sc) i =
      ProjectionProvider.getProjectionFor p m i := by
  show assocGet _ i = assocGet m i
  induction regs generalizing m with
  | nil => rfl
  | cons r rest ih =>
      have step : assocGet (assocSet m r.1 ⟨sc, r.2⟩) i = assocGet m i :=
        assocGet_assocSet_ne m r.1 i _ (fun e => h r (List.mem_cons_self r rest) (e.symm))
      calc assocGet (ProjectionProvider.registerProjections p (assocSet m r.1 ⟨sc, r.2⟩) rest sc) i
          = assocGet (assocSet m r.1 ⟨sc, r.2⟩) i :=
            ih _ (fun q hq => h q (List.mem_cons_of_mem _ hq))
        _ = assocGet m i := step

/-- Claim C8: `getProjectionFor` on an instruction that was never passed to
`registerProjections` (over any history of registration calls starting from
the fresh module-level map) returns `null` and does not fault. -/
theorem getProjectionFor_unregistered
    (hist : List (List (Nat × List (String × Nat)) × Scope)) (i : Nat)
    (h : ∀ q ∈ hist, ∀ r ∈ q.1, r.1 ≠ i) :
    ProjectionProvider.getProjectionFor ProjectionProvider.mk
      (applyRegs ProjectionProvider.mk [] hist) i = none := by
  suffices H : ∀ (m : PMap), ProjectionProvider.getProjectionFor ProjectionProvider.mk m i = none →
      ProjectionProvider.getProjectionFor ProjectionProvider.mk
        (applyRegs ProjectionProvider.mk m hist) i = none by
    exact H [] rfl
  induction hist with
  | nil => intro m hm; exact hm
  | cons q rest ih =>
      intro m hm
      obtain ⟨regs, sc⟩ := q
      have h1 : ProjectionProvider.getProjectionFor ProjectionProvider.mk
          (ProjectionProvider.registerProjections ProjectionProvider.mk m regs sc) i = none := by
        rw [registerProjections_getProjectionFor_ne _ _ _ _ _
          (h (regs, sc) (List.mem_cons_self _ _))]
        exact hm
      exact ih (fun q hq => h q (List.mem_cons_of_mem _ hq)) _ h1

theorem getProjectionFor_unregistered_witness :
    ProjectionProvider.getProjectionFor ProjectionProvider.mk
      (applyRegs ProjectionProvider.mk []
        [([(2, [("header", 5)])], Scope.mk 0 none)]) 3 = none :=
  getProjectionFor_unregistered [([(2, [("header", 5)])], Scope.mk 0 none)] 3
    (by intro q hq r hr
        simp only [List.mem_singleton] at hq
        subst hq
        simp only [List.mem_singleton] at hr
        subst hr
        decide)

/-! ## C6: AuSlot scope selection -/

/-- Claim C6: an `AuSlot` view built from projected content with captured
scope `S` is activated against `S`, not against the host's current scope
(here `ctrl`), even when they differ; with no captured scope the activation
falls back to the host component's parent scope. -/
theorem au_slot_scope_selection (ctype : AuSlotContentType) (S ctrl : Scope)
    (hne : S ≠ ctrl) :
    ((AuSlot.make ⟨ctype, some S⟩).binding ctrl).attaching.bindingScope = some S ∧
    ((AuSlot.make ⟨ctype, some S⟩).binding ctrl).attaching.bindingScope ≠ some ctrl ∧
    ((AuSlot.make ⟨ctype, none⟩).binding ctrl).attaching.bindingScope = ctrl.parentScope := by
  refine ⟨rfl, ?_, rfl⟩
  intro hcontra
  simp only [AuSlot.make, AuSlot.binding, AuSlot.attaching, Option.some.injEq] at hcontra
  exact hne hcontra

theorem au_slot_scope_selection_witness :
    ((AuSlot.make ⟨AuSlotContentType.Projection, some (Scope.mk 0 none)⟩).binding
        (Scope.mk 1 none)).attaching.bindingScope = some (Scope.mk 0 none) ∧
    ((AuSlot.make ⟨AuSlotContentType.Projection, some (Scope.mk 0 none)⟩).binding
        (Scope.mk 1 none)).attaching.bindingScope ≠ some (Scope.mk 1 none) ∧
    ((AuSlot.make ⟨AuSlotContentType.Projection, none⟩).binding
        (Scope.mk 1 none)).attaching.bindingScope = (Scope.mk 1 none).parentScope :=
  au_slot_scope_selection AuSlotContentType.Projection (Scope.mk 0 none) (Scope.mk 1 none)
    (by intro h; cases h)

/-! ## C2: double dispose is not idempotent (code bug) -/

/-- Claim C2 evaluated at the failing input: one registration, its
subscription disposed twice.  The second dispose decrements again: the
tracker's count becomes `-1`, and a subsequent `addEventListener` for the
same publisher and event brings the count back to `0` without reattaching
the native subscription, so the new logical listener is attached while no
native subscription exists. -/
theorem double_dispose_double_decrements :
    (let p := addEventListener emEmpty 0 1 "click" (EvtListener.fn id) none
     let st2 := subDispose (subDispose p.1 p.2) p.2
     (∃ t, assocGet st2.trackers 0 = some t ∧ t.count = -1) ∧
     (let q := addEventListener st2 0 2 "click" (EvtListener.fn id) none
      (∃ t', assocGet q.1.trackers 0 = some t' ∧ t'.count = 0) ∧ q.1.native = [])) :=
  ⟨⟨_, rfl, by decide⟩, ⟨_, rfl, by decide⟩, rfl⟩

/-! ## C9: EventSubscriber resubscription -/

theorem mem_domAdd_of_mem {d : List DirectSub} (s : DirectSub) {x : DirectSub} (h : x ∈ d) :
    x ∈ domAdd d s := by
  unfold domAdd
  split
  · exact h
  · exact List.mem_append_left _ h

theorem mem_domAdd_ne {d : List DirectSub} {s x : DirectSub} (h : x ≠ s) :
    x ∈ domAdd d s ↔ x ∈ d := by
  unfold domAdd
  split
  · exact Iff.rfl
  · simp [List.mem_append, h]

theorem nodup_domAdd {d : List DirectSub} (s : DirectSub) (h : d.Nodup) :
    (domAdd d s).Nodup := by
  unfold domAdd
  split
  · exact h
  · rw [← List.concat_eq_append]
    exact h.concat (by assumption)

theorem mem_subscribe_fold_ne (events : List String) (n hdl : Nat) (d : List DirectSub)
    (x : DirectSub) (hx : x.node ≠ n) :
    x ∈ events.foldl (fun acc en => domAdd acc ⟨n, en, hdl⟩) d ↔ x ∈ d := by
  induction events generalizing d with
  | nil => exact Iff.rfl
  | cons e rest ih =>
      simp only [List.foldl_cons]
      rw [ih (domAdd d ⟨n, e, hdl⟩)]
      exact mem_domAdd_ne (fun hx' => hx (by rw [hx']))

theorem mem_subscribe_fold_of_mem (events : List String) (n hdl : Nat) (d : List DirectSub)
    {x : DirectSub} (h : x ∈ d) :
    x ∈ events.foldl (fun acc en => domAdd acc ⟨n, en, hdl⟩) d := by
  induction events generalizing d with
  | nil => exact h
  | cons e rest ih =>
      simp only [List.foldl_cons]
      exact ih _ (mem_domAdd_of_mem _ h)

theorem mem_subscribe_fold_self (events : List String) (n hdl : Nat) (d : List DirectSub)
    {en : String} (hen : en ∈ events) :
    (⟨n, en, hdl⟩ : DirectSub) ∈ events.foldl (fun acc e => domAdd acc ⟨n, e, hdl⟩) d := by
  induction events generalizing d with
  | nil => cases hen
  | cons e rest ih =>
      simp only [List.foldl_cons]
      rcases List.mem_cons.mp hen with he | he
      · subst he
        exact mem_subscribe_fold_of_mem rest n hdl _ (by unfold domAdd; split <;> simp_all)
      · exact ih _ he

theorem nodup_subscribe_fold (events : List String) (n hdl : Nat) (d : List DirectSub)
    (h : d.Nodup) :
    (events.foldl (fun acc en => domAdd acc ⟨n, en, hdl⟩) d).Nodup := by
  induction events generalizing d with
  | nil => exact h
  | cons e rest ih =>
      simp only [List.foldl_cons]
      exact ih _ (nodup_domAdd _ h)

theorem mem_dispose_fold_ne (events : List String) (n hdl : Nat) (d : List DirectSub)
    (x : DirectSub) (hx : x.node ≠ n) :
    x ∈ events.foldl (fun acc en => domRemove acc ⟨n, en, hdl⟩) d ↔ x ∈ d := by
  induction events generalizing d with
  | nil => exact Iff.rfl
  | cons e rest ih =>
      simp only [List.foldl_cons]
      rw [ih (domRemove d ⟨n, e, hdl⟩)]
      exact List.mem_erase_of_ne (fun hx' => hx (by rw [hx']))

theorem dispose_fold_sublist (events : List String) (n hdl : Nat) (d : List DirectSub) :
    List.Sublist (events.foldl (fun acc en => domRemove acc ⟨n, en, hdl⟩) d) d := by
  induction events generalizing d with
  | nil => exact List.Sublist.refl d
  | cons e rest ih =>
      simp only [List.foldl_cons]
      exact (ih _).trans (List.erase_sublist _ _)

theorem dispose_fold_not_mem (events : List String) (n hdl : Nat) {en : String}
    (hen : en ∈ events) :
    ∀ d : List DirectSub, d.Nodup →
      (⟨n, en, hdl⟩ : DirectSub) ∉ events.foldl (fun acc e => domRemove acc ⟨n, e, hdl⟩) d := by
  induction events with
  | nil => cases hen
  | cons e rest ih =>
      intro d hd
      simp only [List.foldl_cons]
      rcases List.mem_cons.mp hen with he | he
      · subst he
        intro hmem
        exact hd.not_mem_erase
          ((dispose_fold_sublist rest n hdl (domRemove d ⟨n, en, hdl⟩)).subset hmem)
      · exact ih he _ (hd.erase _)

/-- Claim C9: calling `EventSubscriber.subscribe` a second time with a
different node overwrites the stored target and handler, and the subsequent
`dispose` removes listeners only from the most recently subscribed node:
the listeners attached to the first node remain attached. -/
theorem event_subscriber_resubscribe_dispose (events : List String) (n1 n2 hdl1 hdl2 : Nat)
    (hne : n1 ≠ n2) :
    (let q1 := (EventSubscriber.make events).subscribe [] n1 hdl1
     let q2 := q1.1.subscribe q1.2 n2 hdl2
     let q3 := q2.1.dispose q2.2
     q2.1.target = some n2 ∧ q2.1.handler = some hdl2 ∧
     (∀ en, ((⟨n1, en, hdl1⟩ : DirectSub) ∈ q3.2 ↔ (⟨n1, en, hdl1⟩ : DirectSub) ∈ q1.2)) ∧
     (∀ en ∈ events, (⟨n1, en, hdl1⟩ : DirectSub) ∈ q3.2) ∧
     (∀ en ∈ events, (⟨n2, en, hdl2⟩ : DirectSub) ∉ q3.2)) := by
  have hd1 : ∀ en : String, ((⟨n1, en, hdl1⟩ : DirectSub) ∈
      events.foldl (fun acc e => domRemove acc ⟨n2, e, hdl2⟩)
        (events.foldl (fun acc e => domAdd acc ⟨n2, e, hdl2⟩)
          (events.foldl (fun acc e => domAdd acc ⟨n1, e, hdl1⟩) ([] : List DirectSub))) ↔
      (⟨n1, en, hdl1⟩ : DirectSub) ∈
        events.foldl (fun acc e => domAdd acc ⟨n1, e, hdl1⟩) ([] : List DirectSub)) := by
    intro en
    rw [mem_dispose_fold_ne events n2 hdl2 _ _ hne,
      mem_subscribe_fold_ne events n2 hdl2 _ _ hne]
  refine ⟨rfl, rfl, hd1, ?_, ?_⟩
  · intro en hen
    exact (hd1 en).mpr (mem_subscribe_fold_self events n1 hdl1 [] hen)
  · intro en hen
    exact dispose_fold_not_mem events n2 hdl2 hen _
      (nodup_subscribe_fold events n2 hdl2 _
        (nodup_subscribe_fold events n1 hdl1 [] List.nodup_nil))

theorem event_subscriber_resubscribe_dispose_witness :
    (let q1 := (EventSubscriber.make ["change", "input"]).subscribe [] 7 100
     let q2 := q1.1.subscribe q1.2 8 200
     let q3 := q2.1.dispose q2.2
     q2.1.target = some 8 ∧ q2.1.handler = some 200 ∧
     (∀ en, ((⟨7, en, 100⟩ : DirectSub) ∈ q3.2 ↔ (⟨7, en, 100⟩ : DirectSub) ∈ q1.2)) ∧
     (∀ en ∈ ["change", "input"], (⟨7, en, 100⟩ : DirectSub) ∈ q3.2) ∧
     (∀ en ∈ ["change", "input"], (⟨8, en, 200⟩ : DirectSub) ∉ q3.2)) :=
  event_subscriber_resubscribe_dispose ["change", "input"] 7 8 100 200 (by decide)

/-! ## C1 and C5: reference counting in single-tracker scenarios -/

@[simp]
theorem assocGet_nil {κ α : Type} [DecidableEq κ] (k : κ) :
    assocGet ([] : List (κ × α)) k = none := rfl

@[simp]
theorem assocGet_cons_self {κ α : Type} [DecidableEq κ] (k : κ) (v : α) (l : List (κ × α)) :
    assocGet ((k, v) :: l) k = some v := by
  simp [assocGet]

theorem assocGet_cons_ne {κ α : Type} [DecidableEq κ] {k k' : κ} (v : α) (l : List (κ × α))
    (h : ¬ k = k') : assocGet ((k, v) :: l) k' = assocGet l k' := by
  simp [assocGet, h]

@[simp]
theorem assocSet_nil {κ α : Type} [DecidableEq κ] (k : κ) (v : α) :
    assocSet ([] : List (κ × α)) k v = [(k, v)] := rfl

@[simp]
theorem assocSet_cons_self {κ α : Type} [DecidableEq κ] (k : κ) (v v' : α) (l : List (κ × α)) :
    assocSet ((k, v') :: l) k v = (k, v) :: l := by
  simp [assocSet]

theorem assocSet_cons_ne {κ α : Type} [DecidableEq κ] {k0 k : κ} (v0 : α) (v : α)
    (l : List (κ × α)) (h : ¬ k0 = k) :
    assocSet ((k0, v0) :: l) k v = (k0, v0) :: assocSet l k v := by
  simp [assocSet, h]

theorem ensureLookup_fields (t : ListenerTracker) (tgt : Nat) :
    ∃ cl bl, ensureLookup t tgt =
      ⟨t.publisher, t.eventName, t.options, t.count, cl, bl⟩ := by
  unfold ensureLookup
  split
  · split
    · exact ⟨t.captureLookups, t.bubbleLookups, rfl⟩
    · exact ⟨assocSet t.captureLookups tgt [], t.bubbleLookups, rfl⟩
  · split
    · exact ⟨t.captureLookups, t.bubbleLookups, rfl⟩
    · exact ⟨t.captureLookups, assocSet t.bubbleLookups tgt [], rfl⟩

theorem modifyTracker_scen (st : EMState) (tr : ListenerTracker)
    (ht : st.trackers = [(0, tr)]) (f : ListenerTracker → ListenerTracker)
    (hf : ∃ cl bl, f tr = ⟨tr.publisher, tr.eventName, tr.options, tr.count, cl, bl⟩) :
    ∃ cl bl, modifyTracker st 0 f =
      { st with trackers :=
          [(0, ⟨tr.publisher, tr.eventName, tr.options, tr.count, cl, bl⟩)] } := by
  obtain ⟨cl, bl, hfe⟩ := hf
  refine ⟨cl, bl, ?_⟩
  unfold modifyTracker
  rw [ht]
  simp [hfe]

theorem trackerSetListener_scen (st : EMState) (tr : ListenerTracker)
    (ht : st.trackers = [(0, tr)]) (target : Nat) (en : String) (v : Option EvtListener) :
    ∃ cl bl, trackerSetListener st 0 target en v =
      { st with trackers :=
          [(0, ⟨tr.publisher, tr.eventName, tr.options, tr.count, cl, bl⟩)] } := by
  unfold trackerSetListener
  refine modifyTracker_scen st tr ht _ ?_
  split
  · split
    · exact ⟨tr.captureLookups, tr.bubbleLookups, rfl⟩
    · exact ⟨_, tr.bubbleLookups, rfl⟩
  · split
    · exact ⟨tr.captureLookups, tr.bubbleLookups, rfl⟩
    · exact ⟨tr.captureLookups, _, rfl⟩

theorem trackerIncrement_scen (st : EMState) (pub : Nat) (en : String)
    (o : AddEventListenerOptions) (c : Int) (cl bl : List (Nat × LookupRec))
    (ht : st.trackers = [(0, ⟨pub, en, o, c, cl, bl⟩)]) :
    trackerIncrement st 0 =
      { st with trackers := [(0, ⟨pub, en, o, c + 1, cl, bl⟩)],
                native := if c + 1 = 1 then st.native ++ [⟨pub, en, 0, o.capture⟩]
                          else st.native } := by
  unfold trackerIncrement
  rw [ht]
  by_cases h : c + 1 = 1 <;> simp [mkNative, h]

theorem trackerDecrement_scen (st : EMState) (pub : Nat) (en : String)
    (o : AddEventListenerOptions) (c : Int) (cl bl : List (Nat × LookupRec))
    (ht : st.trackers = [(0, ⟨pub, en, o, c, cl, bl⟩)]) :
    trackerDecrement st 0 =
      { st with trackers := [(0, ⟨pub, en, o, c - 1, cl, bl⟩)],
                native := if c - 1 = 0 then st.native.erase ⟨pub, en, 0, o.capture⟩
                          else st.native } := by
  unfold trackerDecrement
  rw [ht]
  by_cases h : c - 1 = 0 <;> simp [mkNative, h]

theorem newDelegateSubscription_scen (st : EMState) (pub : Nat) (en : String)
    (o : AddEventListenerOptions) (c : Int) (cl bl : List (Nat × LookupRec))
    (ht : st.trackers = [(0, ⟨pub, en, o, c, cl, bl⟩)]) (tgt : Nat) (l : EvtListener) :
    ∃ cl2 bl2, newDelegateSubscription st 0 tgt en l =
      ({ st with trackers := [(0, ⟨pub, en, o, c + 1, cl2, bl2⟩)],
                 native := if c + 1 = 1 then st.native ++ [⟨pub, en, 0, o.capture⟩]
                           else st.native },
       (⟨0, tgt, en⟩ : DelegateSubscription)) := by
  simp only [newDelegateSubscription]
  rw [trackerIncrement_scen st pub en o c cl bl ht]
  obtain ⟨cl2, bl2, hset⟩ := trackerSetListener_scen
    ({ st with trackers := [(0, ⟨pub, en, o, c + 1, cl, bl⟩)],
               native := if c + 1 = 1 then st.native ++ [⟨pub, en, 0, o.capture⟩]
                         else st.native })
    ⟨pub, en, o, c + 1, cl, bl⟩ rfl tgt en (some l)
  rw [hset]
  exact ⟨cl2, bl2, rfl⟩

theorem addEventListener_fresh (pub tgt : Nat) (en : String) (l : EvtListener)
    (opts : Option AddEventListenerOptions) :
    ScenState pub en (opts.getD defaultOptions) 1 (addEventListener emEmpty pub tgt en l opts).1 ∧
    (addEventListener emEmpty pub tgt en l opts).2 = ⟨0, tgt, en⟩ := by
  have hred : addEventListener emEmpty pub tgt en l opts =
      newDelegateSubscription
        (modifyTracker
          (⟨[(en, [(pub, 0)])], [(0, ⟨pub, en, opts.getD defaultOptions, 0, [], []⟩)], [], 1⟩ :
            EMState) 0 (fun t => ensureLookup t tgt)) 0 tgt en l := by
    unfold addEventListener
    simp [emEmpty]
  obtain ⟨cl, bl, hmod⟩ := modifyTracker_scen
    (⟨[(en, [(pub, 0)])], [(0, ⟨pub, en, opts.getD defaultOptions, 0, [], []⟩)], [], 1⟩ : EMState)
    ⟨pub, en, opts.getD defaultOptions, 0, [], []⟩ rfl
    (fun t => ensureLookup t tgt) (ensureLookup_fields _ tgt)
  rw [hred, hmod]
  obtain ⟨cl2, bl2, hnew⟩ := newDelegateSubscription_scen
    ({ (⟨[(en, [(pub, 0)])], [(0, ⟨pub, en, opts.getD defaultOptions, 0, [], []⟩)], [], 1⟩ :
        EMState) with trackers := [(0, ⟨pub, en, opts.getD defaultOptions, 0, cl, bl⟩)] })
    pub en (opts.getD defaultOptions) 0 cl bl rfl tgt l
  rw [hnew]
  exact ⟨⟨rfl, rfl, ⟨cl2, bl2, rfl⟩, by norm_num⟩, rfl⟩

theorem ScenState.add_step (pub : Nat) (en : String) (o : AddEventListenerOptions) (c : Int)
    (st : EMState) (h : ScenState pub en o c st) (tgt : Nat) (l : EvtListener)
    (opts' : Option AddEventListenerOptions) :
    ScenState pub en o (c + 1) (addEventListener st pub tgt en l opts').1 ∧
    (addEventListener st pub tgt en l opts').2 = ⟨0, tgt, en⟩ := by
  obtain ⟨hm, hn, ⟨cl, bl, ht⟩, hnat⟩ := h
  have hred : addEventListener st pub tgt en l opts' =
      newDelegateSubscription (modifyTracker st 0 (fun t => ensureLookup t tgt)) 0 tgt en l := by
    unfold addEventListener
    simp [hm]
  obtain ⟨cl1, bl1, hmod⟩ :=
    modifyTracker_scen st ⟨pub, en, o, c, cl, bl⟩ ht
      (fun t => ensureLookup t tgt) (ensureLookup_fields _ tgt)
  rw [hred, hmod]
  obtain ⟨cl2, bl2, hnew⟩ := newDelegateSubscription_scen
    ({ st with trackers := [(0, ⟨pub, en, o, c, cl1, bl1⟩)] })
    pub en o c cl1 bl1 rfl tgt l
  rw [hnew]
  refine ⟨⟨hm, hn, ⟨cl2, bl2, rfl⟩, ?_⟩, rfl⟩
  show (if c + 1 = 1 then st.native ++ [⟨pub, en, 0, o.capture⟩] else st.native) = _
  rw [hnat]
  by_cases h1 : c + 1 = 1
  · have hc0 : ¬ 0 < c := by omega
    have hc1 : 0 < c + 1 := by omega
    simp [h1, hc0, hc1]
  · by_cases h2 : 0 < c + 1
    · have hc0 : 0 < c := by omega
      simp [h1, h2, hc0]
    · have hc0 : ¬ 0 < c := by omega
      simp [h1, h2, hc0]

theorem ScenState.dispose_step (pub : Nat) (en : String) (o : AddEventListenerOptions)
    (c : Int) (st : EMState) (h : ScenState pub en o c st) (s : DelegateSubscription)
    (hs : s.trackerId = 0) :
    ScenState pub en o (c - 1) (subDispose st s) := by
  obtain ⟨hm, hn, ⟨cl, bl, ht⟩, hnat⟩ := h
  simp only [subDispose]
  rw [hs]
  rw [trackerDecrement_scen st pub en o c cl bl ht]
  obtain ⟨cl2, bl2, hset⟩ := trackerSetListener_scen
    ({ st with trackers := [(0, ⟨pub, en, o, c - 1, cl, bl⟩)],
               native := if c - 1 = 0 then st.native.erase ⟨pub, en, 0, o.capture⟩
                         else st.native })
    ⟨pub, en, o, c - 1, cl, bl⟩ rfl s.target s.eventName none
  rw [hset]
  refine ⟨hm, hn, ⟨cl2, bl2, rfl⟩, ?_⟩
  show (if c - 1 = 0 then st.native.erase ⟨pub, en, 0, o.capture⟩ else st.native) = _
  rw [hnat]
  by_cases h1 : c - 1 = 0
  · have hc0 : 0 < c := by omega
    have hc1 : ¬ 0 < c - 1 := by omega
    simp [h1, hc0, hc1, List.erase_cons_head]
  · by_cases h2 : 0 < c - 1
    · have hc0 : 0 < c := by omega
      simp [h1, h2, hc0]
    · have hc0 : ¬ 0 < c := by omega
      simp [h1, h2, hc0]

theorem ScenState.addAll_steps (pub : Nat) (en : String) (o : AddEventListenerOptions)
    (l : EvtListener) (opts' : Option AddEventListenerOptions) (targets : List Nat) :
    ∀ (c : Int) (st : EMState), ScenState pub en o c st →
      ScenState pub en o (c + targets.length) (addAll pub en opts' l st targets).1 ∧
      (addAll pub en opts' l st targets).2 =
        targets.map (fun tgt => (⟨0, tgt, en⟩ : DelegateSubscription)) := by
  induction targets with
  | nil =>
      intro c st h
      simpa using ⟨h, rfl⟩
  | cons tgt rest ih =>
      intro c st h
      obtain ⟨h1, hsub⟩ := ScenState.add_step pub en o c st h tgt l opts'
      obtain ⟨h2, hsubs⟩ := ih (c + 1) _ h1
      constructor
      · have harith : c + 1 + (rest.length : Int) = c + ((tgt :: rest).length : Int) := by
          simp [List.length_cons]
          omega
        rw [← harith]
        exact h2
      · simp only [addAll, List.map_cons]
        rw [hsub, hsubs]

theorem ScenState.disposeAll_steps (pub : Nat) (en : String) (o : AddEventListenerOptions)
    (subs : List DelegateSubscription) (hsubs : ∀ s ∈ subs, s.trackerId = 0) :
    ∀ (c : Int) (st : EMState), ScenState pub en o c st →
      ScenState pub en o (c - subs.length) (disposeAll st subs) := by
  induction subs with
  | nil =>
      intro c st h
      simpa using h
  | cons s rest ih =>
      intro c st h
      have h1 := ScenState.dispose_step pub en o c st h s
        (hsubs s (List.mem_cons_self s rest))
      have h2 := ih (fun q hq => hsubs q (List.mem_cons_of_mem _ hq)) (c - 1) _ h1
      have harith : c - 1 - (rest.length : Int) = c - ((s :: rest).length : Int) := by
        simp [List.length_cons]
        omega
      rw [← harith]
      exact h2

/-- Claim C1: N `addEventListener` calls for the same (publisher, eventName,
phase) with distinct targets attach exactly one native subscription; the
tracker's count equals the number of live registrations, disposing all N
subscriptions returns the count to zero and detaches the native
subscription, and at every intermediate point (after disposing any prefix
of `j` of them) the native subscription exists iff the count is positive. -/
theorem delegated_refcount_single_native (pub : Nat) (en : String)
    (opts : Option AddEventListenerOptions) (l : EvtListener) (targets : List Nat)
    (hnd : targets.Nodup) (hne : targets ≠ []) (j : Nat) (hj : j ≤ targets.length) :
    (addAll pub en opts l emEmpty targets).1.native =
        [⟨pub, en, 0, (opts.getD defaultOptions).capture⟩] ∧
    (∃ t, assocGet (addAll pub en opts l emEmpty targets).1.trackers 0 = some t ∧
        t.count = targets.length) ∧
    (addAll pub en opts l emEmpty targets).2.length = targets.length ∧
    (∃ t, assocGet (disposeAll (addAll pub en opts l emEmpty targets).1
          ((addAll pub en opts l emEmpty targets).2.take j)).trackers 0 = some t ∧
        t.count = (targets.length : Int) - (j : Int)) ∧
    ((disposeAll (addAll pub en opts l emEmpty targets).1
          ((addAll pub en opts l emEmpty targets).2.take j)).native =
        [⟨pub, en, 0, (opts.getD defaultOptions).capture⟩] ↔ j < targets.length) ∧
    ((disposeAll (addAll pub en opts l emEmpty targets).1
          ((addAll pub en opts l emEmpty targets).2.take j)).native = [] ↔
        j = targets.length) := by
  obtain ⟨tgt, rest, rfl⟩ : ∃ tgt rest, targets = tgt :: rest := by
    cases targets with
    | nil => exact absurd rfl hne
    | cons a b => exact ⟨a, b, rfl⟩
  have hj' : j ≤ rest.length + 1 := by simpa using hj
  obtain ⟨h1, hsub1⟩ := addEventListener_fresh pub tgt en l opts
  obtain ⟨hN, hsubs⟩ :=
    ScenState.addAll_steps pub en (opts.getD defaultOptions) l opts rest 1 _ h1
  have hp1 : (addAll pub en opts l emEmpty (tgt :: rest)).1 =
      (addAll pub en opts l (addEventListener emEmpty pub tgt en l opts).1 rest).1 := by
    simp only [addAll]
  have hp2 : (addAll pub en opts l emEmpty (tgt :: rest)).2 =
      (addEventListener emEmpty pub tgt en l opts).2 ::
      (addAll pub en opts l (addEventListener emEmpty pub tgt en l opts).1 rest).2 := by
    simp only [addAll]
  rw [hp1, hp2, hsub1, hsubs]
  have hconsmap : (⟨0, tgt, en⟩ : DelegateSubscription) ::
      rest.map (fun a => (⟨0, a, en⟩ : DelegateSubscription)) =
      (tgt :: rest).map (fun a => (⟨0, a, en⟩ : DelegateSubscription)) := rfl
  rw [hconsmap]
  have htid0 : ∀ s ∈ (tgt :: rest).map (fun a => (⟨0, a, en⟩ : DelegateSubscription)),
      s.trackerId = 0 := by
    intro s hs
    obtain ⟨a, _, rfl⟩ := List.mem_map.mp hs
    rfl
  have hScenJ := ScenState.disposeAll_steps pub en (opts.getD defaultOptions)
    (((tgt :: rest).map (fun a => (⟨0, a, en⟩ : DelegateSubscription))).take j)
    (fun s hs => htid0 s (List.mem_of_mem_take hs))
    (1 + rest.length) _ hN
  have hlen : (((tgt :: rest).map (fun a => (⟨0, a, en⟩ : DelegateSubscription))).take j).length
      = j := by
    simp only [List.length_take, List.length_map, List.length_cons]
    omega
  rw [hlen] at hScenJ
  obtain ⟨hm, hn, ⟨cl, bl, ht⟩, hnat⟩ := hN
  obtain ⟨hmJ, hnJ, ⟨clJ, blJ, htJ⟩, hnatJ⟩ := hScenJ
  refine ⟨?_, ?_, ?_, ?_, ?_, ?_⟩
  · rw [hnat, if_pos (by omega : (0 : Int) < 1 + rest.length)]
  · refine ⟨_, by rw [ht]; exact assocGet_cons_self _ _ _, ?_⟩
    show (1 : Int) + rest.length = ((tgt :: rest).length : Int)
    simp only [List.length_cons]
    push_cast
    ring
  · simp
  · refine ⟨_, by rw [htJ]; exact assocGet_cons_self _ _ _, ?_⟩
    show (1 : Int) + rest.length - j = ((tgt :: rest).length : Int) - j
    simp only [List.length_cons]
    push_cast
    ring
  · rw [hnatJ]
    by_cases hlt : (0 : Int) < 1 + rest.length - j
    · rw [if_pos hlt]
      simp only [List.length_cons]
      constructor
      · intro _
        omega
      · intro _
        trivial
    · rw [if_neg hlt]
      simp only [List.length_cons]
      constructor
      · intro hfalse
        exact absurd hfalse.symm (List.cons_ne_nil _ _)
      · intro hfalse
        omega
  · rw [hnatJ]
    by_cases hlt : (0 : Int) < 1 + rest.length - j
    · rw [if_pos hlt]
      simp only [List.length_cons]
      constructor
      · intro hfalse
        exact absurd hfalse (List.cons_ne_nil _ _)
      · intro hfalse
        omega
    · rw [if_neg hlt]
      simp only [List.length_cons]
      constructor
      · intro _
        omega
      · intro _
        trivial

theorem delegated_refcount_single_native_witness :
    (addAll 0 "click" none (EvtListener.fn id) emEmpty [5, 6, 7]).1.native =
        [⟨0, "click", 0, false⟩] ∧
    (∃ t, assocGet (addAll 0 "click" none (EvtListener.fn id) emEmpty [5, 6, 7]).1.trackers 0 =
        some t ∧ t.count = ([5, 6, 7] : List Nat).length) ∧
    (addAll 0 "click" none (EvtListener.fn id) emEmpty [5, 6, 7]).2.length =
        ([5, 6, 7] : List Nat).length ∧
    (∃ t, assocGet (disposeAll (addAll 0 "click" none (EvtListener.fn id) emEmpty [5, 6, 7]).1
          ((addAll 0 "click" none (EvtListener.fn id) emEmpty [5, 6, 7]).2.take 3)).trackers 0 =
        some t ∧ t.count = (([5, 6, 7] : List Nat).length : Int) - (3 : Int)) ∧
    ((disposeAll (addAll 0 "click" none (EvtListener.fn id) emEmpty [5, 6, 7]).1
          ((addAll 0 "click" none (EvtListener.fn id) emEmpty [5, 6, 7]).2.take 3)).native =
        [⟨0, "click", 0, false⟩] ↔ 3 < ([5, 6, 7] : List Nat).length) ∧
    ((disposeAll (addAll 0 "click" none (EvtListener.fn id) emEmpty [5, 6, 7]).1
          ((addAll 0 "click" none (EvtListener.fn id) emEmpty [5, 6, 7]).2.take 3)).native = [] ↔
        3 = ([5, 6, 7] : List Nat).length) :=
  delegated_refcount_single_native 0 "click" none (EvtListener.fn id) [5, 6, 7]
    (by decide) (by decide) 3 (by decide)

/-- Claim C5 (amended): the registry keys trackers by (event name, publisher)
only — a second `addEventListener` for the same publisher and event name with
different phase options reuses the first call's tracker (its options, and in
particular its phase, are those of the first call; the second call's options
are ignored), so exactly one tracker and one native subscription (in the
first call's phase) exist. -/
theorem tracker_reuse_ignores_phase (pub t1 t2 : Nat) (en : String) (l1 l2 : EvtListener)
    (o1 o2 : Option AddEventListenerOptions) :
    (addEventListener (addEventListener emEmpty pub t1 en l1 o1).1 pub t2 en l2 o2).2.trackerId =
      (addEventListener emEmpty pub t1 en l1 o1).2.trackerId ∧
    (addEventListener (addEventListener emEmpty pub t1 en l1 o1).1 pub t2 en l2
        o2).1.trackers.length = 1 ∧
    (∃ t, assocGet
        (addEventListener (addEventListener emEmpty pub t1 en l1 o1).1 pub t2 en l2
          o2).1.trackers 0 = some t ∧
        t.options = o1.getD defaultOptions ∧ t.count = 2) ∧
    (addEventListener (addEventListener emEmpty pub t1 en l1 o1).1 pub t2 en l2 o2).1.native =
      [⟨pub, en, 0, (o1.getD defaultOptions).capture⟩] := by
  obtain ⟨h1, hsub1⟩ := addEventListener_fresh pub t1 en l1 o1
  obtain ⟨h2, hsub2⟩ :=
    ScenState.add_step pub en (o1.getD defaultOptions) 1 _ h1 t2 l2 o2
  obtain ⟨hm, hn, ⟨cl, bl, ht⟩, hnat⟩ := h2
  refine ⟨by rw [hsub1, hsub2], by rw [ht]; rfl, ⟨_, by rw [ht]; exact assocGet_cons_self _ _ _,
    rfl, by norm_num⟩, ?_⟩
  rw [hnat, if_pos (by norm_num : (0 : Int) < 1 + 1)]

/-- Claim C5 as stated is false: after a bubble-phase and then a
capture-phase registration for the same publisher and event name, the
registry holds a single tracker (not two); the only native subscription is
the bubble-phase one, and the capture registration's listener was stored in
that bubble tracker (its capture lookup map stays empty), so no
capture-phase native listener dispatches it. -/
theorem tracker_per_phase_counterexample :
    (addEventListener (addEventListener emEmpty 0 1 "click" (EvtListener.fn id)
        (some ⟨false⟩)).1 0 2 "click" (EvtListener.fn id)
        (some ⟨true⟩)).1.trackers.length = 1 ∧
    ¬ (addEventListener (addEventListener emEmpty 0 1 "click" (EvtListener.fn id)
        (some ⟨false⟩)).1 0 2 "click" (EvtListener.fn id)
        (some ⟨true⟩)).1.trackers.length = 2 ∧
    (addEventListener (addEventListener emEmpty 0 1 "click" (EvtListener.fn id)
        (some ⟨false⟩)).1 0 2 "click" (EvtListener.fn id)
        (some ⟨true⟩)).1.native = [⟨0, "click", 0, false⟩] ∧
    (∃ t, assocGet (addEventListener (addEventListener emEmpty 0 1 "click" (EvtListener.fn id)
        (some ⟨false⟩)).1 0 2 "click" (EvtListener.fn id)
        (some ⟨true⟩)).1.trackers 0 = some t ∧
      t.options.capture = false ∧ t.captureLookups = [] ∧ t.bubbleLookups.length = 2) := by
  refine ⟨rfl, by decide, rfl, _, rfl, rfl, rfl, rfl⟩

/-! ## C3 and C4: dispatch order, cancel-bubble, and skipping -/

/-- Claim C3: in a bubble-phase dispatch over a composed path `[T, X, M, R]`
(target first) where `T` and `R` have listeners registered for the tracked
event name, `X` has no lookup record and `M` has a record with no entry for
the event name: if `T`'s listener sets cancel-bubble the walk stops with only
`T` invoked; otherwise `T` is invoked before `R`, and `X` and `M` are
skipped with the walk continuing. -/
theorem bubble_dispatch_order_cancel_skip (t : ListenerTracker)
    (hphase : t.options.capture = false) (T X M R : Nat) (ev : Event)
    (hpath : ev.composedPath = [T, X, M, R])
    (recT recM recR : LookupRec) (lT lR : EvtListener)
    (hT : assocGet t.bubbleLookups T = some recT)
    (hlT : recGet recT t.eventName = some lT)
    (hX : assocGet t.bubbleLookups X = none)
    (hM : assocGet t.bubbleLookups M = some recM)
    (hlM : recGet recM t.eventName = none)
    (hR : assocGet t.bubbleLookups R = some recR)
    (hlR : recGet recR t.eventName = some lR) :
    ((invokeListener lT ev).cancelBubble = true →
      t.handleEvent ev = (invokeListener lT ev, [T])) ∧
    ((invokeListener lT ev).cancelBubble = false →
      (t.handleEvent ev).2 = [T, R]) := by
  have hloop : t.handleEvent ev =
      handleEventLoop t.eventName t.bubbleLookups [T, X, M, R] ev [] := by
    simp only [ListenerTracker.handleEvent, hphase, hpath]
    simp
  rw [hloop]
  constructor
  · intro hc
    simp only [handleEventLoop, hT, hlT, hc]
    simp
  · intro hc
    simp only [handleEventLoop, hT, hlT, hc, hX, hM, hlM, hR, hlR]
    simp only [Bool.false_eq_true, if_false]
    split <;> rfl

theorem bubble_dispatch_witness :
    (((subDispose (addEventListener (addEventListener (addEventListener emEmpty
          0 10 "click" (EvtListener.fn (fun e => ⟨e.composedPath, true⟩)) none).1
          0 20 "click" (EvtListener.fn id) none).1
          0 30 "click" (EvtListener.fn id) none).1
          ⟨0, 20, "click"⟩).trackers.head?.map Prod.snd).getD
        ⟨0, "", defaultOptions, 0, [], []⟩).handleEvent ⟨[10, 40, 20, 30], false⟩ =
      (invokeListener (EvtListener.fn (fun e => ⟨e.composedPath, true⟩))
        ⟨[10, 40, 20, 30], false⟩, [10]) ∧
    ((((subDispose (addEventListener (addEventListener (addEventListener emEmpty
          0 10 "click" (EvtListener.fn id) none).1
          0 20 "click" (EvtListener.fn id) none).1
          0 30 "click" (EvtListener.fn id) none).1
          ⟨0, 20, "click"⟩).trackers.head?.map Prod.snd).getD
        ⟨0, "", defaultOptions, 0, [], []⟩).handleEvent ⟨[10, 40, 20, 30], false⟩).2 =
      [10, 30] := by
  constructor
  · refine (bubble_dispatch_order_cancel_skip _ ?_ 10 40 20 30 ⟨[10, 40, 20, 30], false⟩
      ?_ [("click", some (EvtListener.fn (fun e => ⟨e.composedPath, true⟩)))]
      [("click", none)] [("click", some (EvtListener.fn id))]
      (EvtListener.fn (fun e => ⟨e.composedPath, true⟩)) (EvtListener.fn id)
      ?_ ?_ ?_ ?_ ?_ ?_ ?_).1 ?_ <;> rfl
  · refine (bubble_dispatch_order_cancel_skip _ ?_ 10 40 20 30 ⟨[10, 40, 20, 30], false⟩
      ?_ [("click", some (EvtListener.fn id))]
      [("click", none)] [("click", some (EvtListener.fn id))]
      (EvtListener.fn id) (EvtListener.fn id)
      ?_ ?_ ?_ ?_ ?_ ?_ ?_).2 ?_ <;> rfl

/-- Claim C4: in a capture-phase dispatch over a composed path `[T, M, R]`
(target first, root last) where the capture tracker has listeners for `T`
and `R`, the path is reversed before the walk, so `R`'s listener (the
ancestor, nearest the root) is invoked before `T`'s. -/
theorem capture_dispatch_reversed_order (t : ListenerTracker)
    (hphase : t.options.capture = true) (T M R : Nat) (ev : Event)
    (hpath : ev.composedPath = [T, M, R])
    (recT recR : LookupRec) (lT lR : EvtListener)
    (hT : assocGet t.captureLookups T = some recT)
    (hlT : recGet recT t.eventName = some lT)
    (hM : assocGet t.captureLookups M = none)
    (hR : assocGet t.captureLookups R = some recR)
    (hlR : recGet recR t.eventName = some lR)
    (hRnc : (invokeListener lR ev).cancelBubble = false) :
    (t.handleEvent ev).2 = [R, T] := by
  have hloop : t.handleEvent ev =
      handleEventLoop t.eventName t.captureLookups [R, M, T] ev [] := by
    simp only [ListenerTracker.handleEvent, hphase, hpath]
    simp
  rw [hloop]
  simp only [handleEventLoop, hR, hlR, hRnc, hM, hT, hlT]
  simp only [Bool.false_eq_true, if_false]
  split <;> rfl

theorem capture_dispatch_witness :
    ((((addEventListener (addEventListener emEmpty
          0 10 "click" (EvtListener.fn id) (some ⟨true⟩)).1
          0 30 "click" (EvtListener.fn id) (some ⟨true⟩)).1.trackers.head?.map
        Prod.snd).getD ⟨0, "", defaultOptions, 0, [], []⟩).handleEvent
      ⟨[10, 20, 30], false⟩).2 = [30, 10] := by
  refine capture_dispatch_reversed_order _ ?_ 10 20 30 ⟨[10, 20, 30], false⟩
    ?_ [("click", some (EvtListener.fn id))] [("click", some (EvtListener.fn id))]
    (EvtListener.fn id) (EvtListener.fn id) ?_ ?_ ?_ ?_ ?_ ?_ <;> rfl

/-! ## C7: `EventManager.dispose` tears down every native subscription -/

theorem filter_erase_pos {α : Type} [DecidableEq α] (p : α → Bool) (l : List α) (a : α)
    (h : p a = true) : (l.erase a).filter p = (l.filter p).erase a := by
  induction l with
  | nil => rfl
  | cons x xs ih =>
      by_cases hx : x = a
      · subst hx
        simp [List.erase_cons_head, List.filter_cons, h]
      · rw [List.erase_cons_tail (by simp [hx]), List.filter_cons]
        by_cases hp : p x
        · rw [if_pos hp, List.filter_cons, if_pos hp, ih,
            List.erase_cons_tail (by simp [hx])]
        · rw [if_neg hp, List.filter_cons, if_neg hp, ih]

theorem filter_erase_neg {α : Type} [DecidableEq α] (p : α → Bool) (l : List α) (a : α)
    (h : p a = false) : (l.erase a).filter p = l.filter p := by
  induction l with
  | nil => rfl
  | cons x xs ih =>
      by_cases hx : x = a
      · subst hx
        simp [List.erase_cons_head, List.filter_cons, h]
      · rw [List.erase_cons_tail (by simp [hx]), List.filter_cons, List.filter_cons]
        by_cases hp : p x
        · rw [if_pos hp, if_pos hp, ih]
        · rw [if_neg hp, if_neg hp, ih]

theorem assocGet_append_single {κ α : Type} [DecidableEq κ] {l : List (κ × α)} {k nid : κ}
    {v t0 : α} (h : assocGet (l ++ [(nid, t0)]) k = some v) :
    assocGet l k = some v ∨ (k = nid ∧ v = t0 ∧ assocGet l k = none) := by
  cases hl : assocGet l k with
  | some w =>
      rw [assocGet_append_some _ hl] at h
      injection h with h
      subst h
      exact Or.inl rfl
  | none =>
      rw [assocGet_append_none _ hl] at h
      by_cases hk : nid = k
      · subst hk
        rw [assocGet_cons_self] at h
        injection h with h
        exact Or.inr ⟨rfl, h.symm, rfl⟩
      · rw [assocGet_cons_ne _ _ hk, assocGet_nil] at h
        cases h

/-- Updating one tracker in place (possibly together with its own native
subscription) preserves the state invariant, provided the tracker's identity
fields are unchanged and the new native list is consistent for this tracker
and untouched for all others. -/
theorem inv_updateTracker (st : EMState) (tid : Nat) (t t' : ListenerTracker)
    (hget : assocGet st.trackers tid = some t)
    (hpub : t'.publisher = t.publisher) (hen : t'.eventName = t.eventName)
    (hopt : t'.options = t.options)
    (native' : List NativeSub)
    (hnat : native'.filter (fun ns => ns.trackerId == tid) =
        (if 0 < t'.count then [mkNative tid t'] else []))
    (hnatother : ∀ tid2, tid2 ≠ tid → native'.filter (fun ns => ns.trackerId == tid2) =
        st.native.filter (fun ns => ns.trackerId == tid2))
    (hnatmem : ∀ ns ∈ native', ns.trackerId = tid ∨ ns ∈ st.native)
    (hinv : EMInv st)
    (hregnew : 0 < t'.count →
      ∃ tm, assocGet st.trackerMaps t.eventName = some tm ∧
        assocGet tm t.publisher = some tid) :
    EMInv ⟨st.trackerMaps, assocSet st.trackers tid t', native', st.nextId⟩ := by
  obtain ⟨hfr, ⟨hn1, hn2⟩, hrg, hmp⟩ := hinv
  refine ⟨?_, ⟨?_, ?_⟩, ?_, ?_⟩
  · intro p hp
    rcases mem_assocSet hp with rfl | hp2
    · exact hfr (tid, t) (assocGet_mem hget)
    · exact hfr p hp2
  · intro ns hns
    rcases hnatmem ns hns with he | hmem
    · exact ⟨t', by rw [he, assocGet_assocSet_self]⟩
    · obtain ⟨t0, ht0⟩ := hn1 ns hmem
      by_cases he : ns.trackerId = tid
      · exact ⟨t', by rw [he, assocGet_assocSet_self]⟩
      · exact ⟨t0, by rw [assocGet_assocSet_ne _ _ _ _ he, ht0]⟩
  · intro tid2 t2 hget2
    by_cases he : tid2 = tid
    · subst he
      rw [assocGet_assocSet_self] at hget2
      injection hget2 with hget2
      subst hget2
      exact hnat
    · rw [assocGet_assocSet_ne _ _ _ _ he] at hget2
      show native'.filter _ = _
      rw [hnatother tid2 he]
      exact hn2 tid2 t2 hget2
  · intro tid2 t2 hget2 hpos
    by_cases he : tid2 = tid
    · subst he
      rw [assocGet_assocSet_self] at hget2
      injection hget2 with hget2
      subst hget2
      rw [hen, hpub]
      exact hregnew hpos
    · rw [assocGet_assocSet_ne _ _ _ _ he] at hget2
      exact hrg tid2 t2 hget2 hpos
  · intro en tm hm pub tid2 hp
    obtain ⟨t0, ht0, hen0, hpub0⟩ := hmp en tm hm pub tid2 hp
    by_cases he : tid2 = tid
    · subst he
      rw [hget] at ht0
      injection ht0 with ht0
      subst ht0
      exact ⟨t', by rw [assocGet_assocSet_self], by rw [hen]; exact hen0,
        by rw [hpub]; exact hpub0⟩
    · exact ⟨t0, by rw [assocGet_assocSet_ne _ _ _ _ he]; exact ht0, hen0, hpub0⟩

theorem inv_trackerIncrement (st : EMState) (tid : Nat) (hinv : EMInv st)
    (hreg : ∀ t, assocGet st.trackers tid = some t →
      ∃ tm, assocGet st.trackerMaps t.eventName = some tm ∧
        assocGet tm t.publisher = some tid) :
    EMInv (trackerIncrement st tid) := by
  cases hget : assocGet st.trackers tid with
  | none =>
      rw [show trackerIncrement st tid = st by simp [trackerIncrement, hget]]
      exact hinv
  | some t =>
      have hold : st.native.filter (fun ns => ns.trackerId == tid) =
          if 0 < t.count then [mkNative tid t] else [] := hinv.2.1.2 tid t hget
      by_cases hone : t.count + 1 = 1
      · have hst : trackerIncrement st tid =
            ⟨st.trackerMaps, assocSet st.trackers tid { t with count := t.count + 1 },
             st.native ++ [mkNative tid t], st.nextId⟩ := by
          simp [trackerIncrement, hget, hone]
        rw [hst]
        refine inv_updateTracker st tid t { t with count := t.count + 1 } hget rfl rfl rfl
          _ ?_ ?_ ?_ hinv ?_
        · rw [List.filter_append, hold, if_neg (by omega : ¬ (0 : Int) < t.count)]
          show [] ++ [mkNative tid t].filter (fun ns => ns.trackerId == tid) =
            if 0 < t.count + 1 then [mkNative tid { t with count := t.count + 1 }] else []
          rw [if_pos (by omega : (0 : Int) < t.count + 1)]
          simp [mkNative]
        · intro tid2 hne
          rw [List.filter_append]
          have hflt : [mkNative tid t].filter (fun ns => ns.trackerId == tid2) = [] := by
            simp only [List.filter_eq_nil_iff, List.mem_singleton]
            intro a ha
            subst ha
            simp only [mkNative, beq_iff_eq, Bool.not_eq_true, decide_eq_false_iff_not]
            omega
          rw [hflt, List.append_nil]
        · intro ns hns
          rcases List.mem_append.mp hns with h | h
          · exact Or.inr h
          · left
            have he : ns = mkNative tid t := by simpa using h
            rw [he]
            rfl
        · intro _
          exact hreg t hget
      · have hst : trackerIncrement st tid =
            ⟨st.trackerMaps, assocSet st.trackers tid { t with count := t.count + 1 },
             st.native, st.nextId⟩ := by
          simp [trackerIncrement, hget, hone]
        rw [hst]
        refine inv_updateTracker st tid t { t with count := t.count + 1 } hget rfl rfl rfl
          _ ?_ (fun _ _ => rfl) (fun ns h => Or.inr h) hinv ?_
        · rw [hold]
          show _ = if 0 < t.count + 1 then [mkNative tid { t with count := t.count + 1 }] else []
          by_cases hpos : 0 < t.count
          · rw [if_pos hpos, if_pos (by omega : (0 : Int) < t.count + 1)]
            rfl
          · rw [if_neg hpos, if_neg (by omega : ¬ (0 : Int) < t.count + 1)]
        · intro hpos'
          have hp2 : (0 : Int) < t.count + 1 := hpos'
          exact hinv.2.2.1 tid t hget (by omega)

theorem inv_trackerDecrement (st : EMState) (tid : Nat) (hinv : EMInv st) :
    EMInv (trackerDecrement st tid) := by
  cases hget : assocGet st.trackers tid with
  | none =>
      rw [show trackerDecrement st tid = st by simp [trackerDecrement, hget]]
      exact hinv
  | some t =>
      have hold : st.native.filter (fun ns => ns.trackerId == tid) =
          if 0 < t.count then [mkNative tid t] else [] := hinv.2.1.2 tid t hget
      by_cases hzero : t.count - 1 = 0
      · have hst : trackerDecrement st tid =
            ⟨st.trackerMaps, assocSet st.trackers tid { t with count := t.count - 1 },
             st.native.erase (mkNative tid t), st.nextId⟩ := by
          simp [trackerDecrement, hget, hzero]
        rw [hst]
        refine inv_updateTracker st tid t { t with count := t.count - 1 } hget rfl rfl rfl
          _ ?_ ?_ ?_ hinv ?_
        · rw [filter_erase_pos _ _ _ (by simp [mkNative]), hold,
            if_pos (by omega : (0 : Int) < t.count), List.erase_cons_head]
          show ([] : List NativeSub) = if 0 < t.count - 1 then _ else []
          rw [if_neg (by omega : ¬ (0 : Int) < t.count - 1)]
        · intro tid2 hne
          refine filter_erase_neg _ _ _ ?_
          simp only [mkNative, beq_eq_false_iff_ne]
          exact Ne.symm hne
        · exact fun ns hns => Or.inr (List.mem_of_mem_erase hns)
        · intro hpos'
          have hp2 : (0 : Int) < t.count - 1 := hpos'
          exact absurd hp2 (by omega)
      · have hst : trackerDecrement st tid =
            ⟨st.trackerMaps, assocSet st.trackers tid { t with count := t.count - 1 },
             st.native, st.nextId⟩ := by
          simp [trackerDecrement, hget, hzero]
        rw [hst]
        refine inv_updateTracker st tid t { t with count := t.count - 1 } hget rfl rfl rfl
          _ ?_ (fun _ _ => rfl) (fun ns h => Or.inr h) hinv ?_
        · rw [hold]
          show _ = if 0 < t.count - 1 then [mkNative tid { t with count := t.count - 1 }] else []
          by_cases hpos : 0 < t.count - 1
          · rw [if_pos (by omega : (0 : Int) < t.count), if_pos hpos]
            rfl
          · rw [if_neg (by omega : ¬ (0 : Int) < t.count), if_neg hpos]
        · intro hpos'
          have hp2 : (0 : Int) < t.count - 1 := hpos'
          exact hinv.2.2.1 tid t hget (by omega)

theorem inv_trackerDispose (st : EMState) (tid : Nat) (hinv : EMInv st) :
    EMInv (trackerDispose st tid) := by
  cases hget : assocGet st.trackers tid with
  | none =>
      rw [show trackerDispose st tid = st by simp [trackerDispose, hget]]
      exact hinv
  | some t =>
      have hold : st.native.filter (fun ns => ns.trackerId == tid) =
          if 0 < t.count then [mkNative tid t] else [] := hinv.2.1.2 tid t hget
      by_cases hpos : 0 < t.count
      · have hst : trackerDispose st tid =
            ⟨st.trackerMaps,
             assocSet st.trackers tid
               { t with count := 0, captureLookups := [], bubbleLookups := [] },
             st.native.erase (mkNative tid t), st.nextId⟩ := by
          simp [trackerDispose, hget, hpos]
        rw [hst]
        refine inv_updateTracker st tid t
          { t with count := 0, captureLookups := [], bubbleLookups := [] } hget rfl rfl rfl
          _ ?_ ?_ ?_ hinv ?_
        · rw [filter_erase_pos _ _ _ (by simp [mkNative]), hold, if_pos hpos,
            List.erase_cons_head]
          show ([] : List NativeSub) = if (0 : Int) < 0 then _ else []
          rw [if_neg (by norm_num : ¬ (0 : Int) < 0)]
        · intro tid2 hne
          refine filter_erase_neg _ _ _ ?_
          simp only [mkNative, beq_eq_false_iff_ne]
          exact Ne.symm hne
        · exact fun ns hns => Or.inr (List.mem_of_mem_erase hns)
        · intro hpos'
          have hp2 : (0 : Int) < 0 := hpos'
          exact absurd hp2 (by norm_num)
      · have hst : trackerDispose st tid =
            ⟨st.trackerMaps,
             assocSet st.trackers tid
               { t with count := t.count, captureLookups := [], bubbleLookups := [] },
             st.native, st.nextId⟩ := by
          simp [trackerDispose, hget, hpos]
        rw [hst]
        refine inv_updateTracker st tid t
          { t with count := t.count, captureLookups := [], bubbleLookups := [] } hget rfl rfl rfl
          _ ?_ (fun _ _ => rfl) (fun ns h => Or.inr h) hinv ?_
        · exact hold
        · intro hpos'
          have hp2 : (0 : Int) < t.count := hpos'
          exact absurd hp2 hpos

theorem inv_modifyTracker_fields (st : EMState) (tid : Nat)
    (f : ListenerTracker → ListenerTracker)
    (hf : ∀ t, ∃ cl bl, f t = ⟨t.publisher, t.eventName, t.options, t.count, cl, bl⟩)
    (hinv : EMInv st) : EMInv (modifyTracker st tid f) := by
  cases hget : assocGet st.trackers tid with
  | none =>
      rw [show modifyTracker st tid f = st by simp [modifyTracker, hget]]
      exact hinv
  | some t =>
      have hst : modifyTracker st tid f =
          ⟨st.trackerMaps, assocSet st.trackers tid (f t), st.native, st.nextId⟩ := by
        simp [modifyTracker, hget]
      rw [hst]
      obtain ⟨cl, bl, hfe⟩ := hf t
      refine inv_updateTracker st tid t (f t) hget (by rw [hfe]) (by rw [hfe]) (by rw [hfe])
        _ ?_ (fun _ _ => rfl) (fun ns h => Or.inr h) hinv ?_
      · rw [hfe]
        exact hinv.2.1.2 tid t hget
      · intro hpos
        rw [hfe] at hpos
        exact hinv.2.2.1 tid t hget hpos

theorem inv_trackerSetListener (st : EMState) (tid target : Nat) (en : String)
    (v : Option EvtListener) (hinv : EMInv st) :
    EMInv (trackerSetListener st tid target en v) := by
  unfold trackerSetListener
  refine inv_modifyTracker_fields st tid _ ?_ hinv
  intro t
  split
  · split
    · exact ⟨t.captureLookups, t.bubbleLookups, rfl⟩
    · exact ⟨_, t.bubbleLookups, rfl⟩
  · split
    · exact ⟨t.captureLookups, t.bubbleLookups, rfl⟩
    · exact ⟨t.captureLookups, _, rfl⟩

theorem inv_subDispose (st : EMState) (s : DelegateSubscription) (hinv : EMInv st) :
    EMInv (subDispose st s) := by
  simp only [subDispose]
  exact inv_trackerSetListener _ _ _ _ _ (inv_trackerDecrement st s.trackerId hinv)

theorem hreg_of_mapsOk (st : EMState) (tid : Nat) (en : String) (pub : Nat)
    (tm : List (Nat × Nat)) (hm : assocGet st.trackerMaps en = some tm)
    (hp : assocGet tm pub = some tid) (hmp : MapsOk st) :
    ∀ t', assocGet st.trackers tid = some t' →
      ∃ tm', assocGet st.trackerMaps t'.eventName = some tm' ∧
        assocGet tm' t'.publisher = some tid := by
  intro t' hget'
  obtain ⟨t0, ht0, hen0, hpub0⟩ := hmp en tm hm pub tid hp
  rw [hget'] at ht0
  injection ht0 with ht0
  subst ht0
  exact ⟨tm, by rw [hen0]; exact hm, by rw [hpub0]; exact hp⟩

theorem inv_mapsInit (st : EMState) (en : String) (hm : assocGet st.trackerMaps en = none)
    (hinv : EMInv st) :
    EMInv ⟨assocSet st.trackerMaps en [], st.trackers, st.native, st.nextId⟩ := by
  obtain ⟨hfr, ⟨hn1, hn2⟩, hrg, hmp⟩ := hinv
  refine ⟨hfr, ⟨hn1, hn2⟩, ?_, ?_⟩
  · intro tid t hget hpos
    obtain ⟨tm, h1, h2⟩ := hrg tid t hget hpos
    by_cases he : t.eventName = en
    · rw [he, hm] at h1
      cases h1
    · exact ⟨tm, by rw [assocGet_assocSet_ne _ _ _ _ he]; exact h1, h2⟩
  · intro en' tm hm' pub tid hp
    by_cases he : en' = en
    · subst he
      rw [assocGet_assocSet_self] at hm'
      injection hm' with hm'
      subst hm'
      cases hp
    · rw [assocGet_assocSet_ne _ _ _ _ he] at hm'
      exact hmp en' tm hm' pub tid hp

theorem inv_allocTracker (st : EMState) (en : String) (pub : Nat)
    (o : AddEventListenerOptions) (tm : List (Nat × Nat))
    (hm : assocGet st.trackerMaps en = some tm) (hp : assocGet tm pub = none)
    (hinv : EMInv st) :
    EMInv ⟨assocSet st.trackerMaps en (assocSet tm pub st.nextId),
           st.trackers ++ [(st.nextId, ⟨pub, en, o, 0, [], []⟩)],
           st.native, st.nextId + 1⟩ := by
  obtain ⟨hfr, ⟨hn1, hn2⟩, hrg, hmp⟩ := hinv
  have hfreshnone : assocGet st.trackers st.nextId = none := by
    cases hq : assocGet st.trackers st.nextId with
    | none => rfl
    | some t => exact absurd (hfr _ (assocGet_mem hq)) (by omega)
  refine ⟨?_, ⟨?_, ?_⟩, ?_, ?_⟩
  · intro p hp2
    dsimp only at hp2 ⊢
    rcases List.mem_append.mp hp2 with h | h
    · have := hfr p h
      omega
    · have hpe : p = (st.nextId, (⟨pub, en, o, 0, [], []⟩ : ListenerTracker)) := by
        simpa using h
      rw [hpe]
      show st.nextId < st.nextId + 1
      omega
  · intro ns hns
    obtain ⟨t0, ht0⟩ := hn1 ns hns
    exact ⟨t0, assocGet_append_some _ ht0⟩
  · intro tid t hget
    rcases assocGet_append_single hget with h | ⟨he, hte, _⟩
    · exact hn2 tid t h
    · subst he
      subst hte
      show st.native.filter (fun ns => ns.trackerId == st.nextId) =
        if (0 : Int) < 0 then _ else []
      rw [if_neg (by norm_num : ¬ (0 : Int) < 0), List.filter_eq_nil_iff]
      intro ns hns
      obtain ⟨t0, ht0⟩ := hn1 ns hns
      have := hfr _ (assocGet_mem ht0)
      simp only [beq_iff_eq]
      omega
  · intro tid t hget hpos
    dsimp only at hget ⊢
    rcases assocGet_append_single hget with h | ⟨he, hte, _⟩
    · obtain ⟨tmQ, h1, h2⟩ := hrg tid t h hpos
      by_cases hen : t.eventName = en
      · rw [hen, hm] at h1
        injection h1 with h1
        rw [← h1] at h2
        by_cases hq : t.publisher = pub
        · rw [hq, hp] at h2
          cases h2
        · exact ⟨assocSet tm pub st.nextId, by rw [hen, assocGet_assocSet_self],
            by rw [assocGet_assocSet_ne _ _ _ _ hq]; exact h2⟩
      · exact ⟨tmQ, by rw [assocGet_assocSet_ne _ _ _ _ hen]; exact h1, h2⟩
    · subst hte
      have hp0 : (0 : Int) < 0 := hpos
      exact absurd hp0 (by norm_num)
  · intro en' tm' hm' pub' tid' hp'
    dsimp only at hm' ⊢
    by_cases he : en' = en
    · subst he
      rw [assocGet_assocSet_self] at hm'
      injection hm' with hm'
      subst hm'
      by_cases hq : pub' = pub
      · subst hq
        rw [assocGet_assocSet_self] at hp'
        injection hp' with hp'
        subst hp'
        refine ⟨⟨pub', en', o, 0, [], []⟩, ?_, rfl, rfl⟩
        rw [assocGet_append_none _ hfreshnone, assocGet_cons_self]
      · rw [assocGet_assocSet_ne _ _ _ _ hq] at hp'
        obtain ⟨t0, ht0, h1, h2⟩ := hmp en' tm hm pub' tid' hp'
        exact ⟨t0, assocGet_append_some _ ht0, h1, h2⟩
    · rw [assocGet_assocSet_ne _ _ _ _ he] at hm'
      obtain ⟨t0, ht0, h1, h2⟩ := hmp en' tm' hm' pub' tid' hp'
      exact ⟨t0, assocGet_append_some _ ht0, h1, h2⟩

theorem inv_subscribeChain (st1 : EMState) (tid tgt : Nat) (en : String) (l : EvtListener)
    (hinv1 : EMInv st1)
    (hreg1 : ∀ t', assocGet st1.trackers tid = some t' →
       ∃ tm', assocGet st1.trackerMaps t'.eventName = some tm' ∧
         assocGet tm' t'.publisher = some tid) :
    EMInv (trackerSetListener (trackerIncrement (modifyTracker st1 tid
      (fun u => ensureLookup u tgt)) tid) tid tgt en (some l)) := by
  have hinv2 := inv_modifyTracker_fields st1 tid _ (fun u => ensureLookup_fields u tgt) hinv1
  refine inv_trackerSetListener _ _ _ _ _ (inv_trackerIncrement _ tid hinv2 ?_)
  intro t' hget'
  cases hget1 : assocGet st1.trackers tid with
  | none =>
      have hid : modifyTracker st1 tid (fun u => ensureLookup u tgt) = st1 := by
        simp [modifyTracker, hget1]
      rw [hid] at hget' ⊢
      exact hreg1 t' hget'
  | some t =>
      have hst2 : modifyTracker st1 tid (fun u => ensureLookup u tgt) =
          ⟨st1.trackerMaps, assocSet st1.trackers tid (ensureLookup t tgt),
           st1.native, st1.nextId⟩ := by
        simp [modifyTracker, hget1]
      rw [hst2] at hget'
      dsimp only at hget'
      rw [assocGet_assocSet_self] at hget'
      injection hget' with hget'
      obtain ⟨cl, bl, hfe⟩ := ensureLookup_fields t tgt
      obtain ⟨tm', hm', hp'⟩ := hreg1 t hget1
      rw [hst2]
      dsimp only
      refine ⟨tm', ?_, ?_⟩
      · rw [← hget', hfe]
        exact hm'
      · rw [← hget', hfe]
        exact hp'

theorem inv_addEventListener (st : EMState) (pub tgt : Nat) (en : String) (l : EvtListener)
    (opts : Option AddEventListenerOptions) (hinv : EMInv st) :
    EMInv (addEventListener st pub tgt en l opts).1 := by
  cases hm : assocGet st.trackerMaps en with
  | some tm =>
      cases hp : assocGet tm pub with
      | some tid =>
          have hred : (addEventListener st pub tgt en l opts).1 =
              trackerSetListener (trackerIncrement
                (modifyTracker st tid (fun u => ensureLookup u tgt)) tid) tid tgt en
                (some l) := by
            simp [addEventListener, hm, hp, newDelegateSubscription]
          rw [hred]
          exact inv_subscribeChain st tid tgt en l hinv
            (hreg_of_mapsOk st tid en pub tm hm hp hinv.2.2.2)
      | none =>
          have hinv1 := inv_allocTracker st en pub (opts.getD defaultOptions) tm hm hp hinv
          have hred : (addEventListener st pub tgt en l opts).1 =
              trackerSetListener (trackerIncrement
                (modifyTracker
                  (⟨assocSet st.trackerMaps en (assocSet tm pub st.nextId),
                    st.trackers ++
                      [(st.nextId, ⟨pub, en, opts.getD defaultOptions, 0, [], []⟩)],
                    st.native, st.nextId + 1⟩ : EMState)
                  st.nextId (fun u => ensureLookup u tgt)) st.nextId) st.nextId tgt en
                (some l) := by
            simp [addEventListener, hm, hp, newDelegateSubscription]
          rw [hred]
          refine inv_subscribeChain _ st.nextId tgt en l hinv1 ?_
          refine hreg_of_mapsOk _ st.nextId en pub (assocSet tm pub st.nextId) ?_ ?_
            hinv1.2.2.2
          · show assocGet (assocSet st.trackerMaps en (assocSet tm pub st.nextId)) en = _
            rw [assocGet_assocSet_self]
          · rw [assocGet_assocSet_self]
  | none =>
      have hinv0 := inv_mapsInit st en hm hinv
      have hinv1 := inv_allocTracker
        (⟨assocSet st.trackerMaps en [], st.trackers, st.native, st.nextId⟩ : EMState)
        en pub (opts.getD defaultOptions) [] (by rw [assocGet_assocSet_self]) rfl hinv0
      have hred : (addEventListener st pub tgt en l opts).1 =
          trackerSetListener (trackerIncrement
            (modifyTracker
              (⟨assocSet (assocSet st.trackerMaps en []) en (assocSet [] pub st.nextId),
                st.trackers ++
                  [(st.nextId, ⟨pub, en, opts.getD defaultOptions, 0, [], []⟩)],
                st.native, st.nextId + 1⟩ : EMState)
              st.nextId (fun u => ensureLookup u tgt)) st.nextId) st.nextId tgt en
            (some l) := by
        simp [addEventListener, hm, newDelegateSubscription]
      rw [hred]
      refine inv_subscribeChain _ st.nextId tgt en l hinv1 ?_
      refine hreg_of_mapsOk _ st.nextId en pub (assocSet [] pub st.nextId) ?_ ?_
        hinv1.2.2.2
      · show assocGet (assocSet (assocSet st.trackerMaps en []) en
          (assocSet [] pub st.nextId)) en = _
        rw [assocGet_assocSet_self]
      · rw [assocGet_assocSet_self]

theorem trackerDispose_other (st : EMState) (tid tid2 : Nat) (hne : tid2 ≠ tid) :
    assocGet (trackerDispose st tid).trackers tid2 = assocGet st.trackers tid2 := by
  cases hget : assocGet st.trackers tid with
  | none => rw [show trackerDispose st tid = st by simp [trackerDispose, hget]]
  | some t =>
      by_cases hpos : 0 < t.count
      · rw [show trackerDispose st tid =
            ⟨st.trackerMaps,
             assocSet st.trackers tid
               { t with count := 0, captureLookups := [], bubbleLookups := [] },
             st.native.erase (mkNative tid t), st.nextId⟩ by
          simp [trackerDispose, hget, hpos]]
        dsimp only
        exact assocGet_assocSet_ne _ _ _ _ hne
      · rw [show trackerDispose st tid =
            ⟨st.trackerMaps,
             assocSet st.trackers tid
               { t with count := t.count, captureLookups := [], bubbleLookups := [] },
             st.native, st.nextId⟩ by
          simp [trackerDispose, hget, hpos]]
        dsimp only
        exact assocGet_assocSet_ne _ _ _ _ hne

theorem trackerDispose_self (st : EMState) (tid : Nat) (t : ListenerTracker)
    (hget : assocGet st.trackers tid = some t) :
    assocGet (trackerDispose st tid).trackers tid =
      some ⟨t.publisher, t.eventName, t.options,
        (if 0 < t.count then 0 else t.count), [], []⟩ := by
  by_cases hpos : 0 < t.count
  · rw [show trackerDispose st tid =
        ⟨st.trackerMaps,
         assocSet st.trackers tid
           { t with count := 0, captureLookups := [], bubbleLookups := [] },
         st.native.erase (mkNative tid t), st.nextId⟩ by
      simp [trackerDispose, hget, hpos]]
    dsimp only
    rw [assocGet_assocSet_self, if_pos hpos]
  · rw [show trackerDispose st tid =
        ⟨st.trackerMaps,
         assocSet st.trackers tid
           { t with count := t.count, captureLookups := [], bubbleLookups := [] },
         st.native, st.nextId⟩ by
      simp [trackerDispose, hget, hpos]]
    dsimp only
    rw [assocGet_assocSet_self, if_neg hpos]

theorem trackerDispose_mono (st : EMState) (tid tid2 : Nat) (t2 : ListenerTracker)
    (hget2 : assocGet (trackerDispose st tid).trackers tid2 = some t2) :
    ∃ t1, assocGet st.trackers tid2 = some t1 ∧ t2.count ≤ t1.count := by
  by_cases hne : tid2 = tid
  · subst hne
    cases hget : assocGet st.trackers tid2 with
    | none =>
        rw [show trackerDispose st tid2 = st by simp [trackerDispose, hget]] at hget2
        rw [hget] at hget2
        cases hget2
    | some t =>
        rw [trackerDispose_self st tid2 t hget] at hget2
        injection hget2 with h
        refine ⟨t, rfl, ?_⟩
        rw [← h]
        show (if 0 < t.count then 0 else t.count) ≤ t.count
        by_cases hpos : 0 < t.count
        · rw [if_pos hpos]
          omega
        · rw [if_neg hpos]
  · rw [trackerDispose_other st tid tid2 hne] at hget2
    exact ⟨t2, hget2, le_refl _⟩

theorem foldDispose_other (tids : List Nat) : ∀ (st : EMState) (tid : Nat), tid ∉ tids →
    assocGet (tids.foldl trackerDispose st).trackers tid = assocGet st.trackers tid := by
  induction tids with
  | nil => intro st tid _; rfl
  | cons a rest ih =>
      intro st tid h
      simp only [List.foldl_cons]
      rw [ih _ _ (fun hh => h (List.mem_cons_of_mem _ hh))]
      exact trackerDispose_other st a tid (fun he => h (he ▸ List.mem_cons_self a rest))

theorem foldDispose_mono (tids : List Nat) : ∀ (st : EMState) (tid2 : Nat)
    (t2 : ListenerTracker),
    assocGet (tids.foldl trackerDispose st).trackers tid2 = some t2 →
    ∃ t1, assocGet st.trackers tid2 = some t1 ∧ t2.count ≤ t1.count := by
  induction tids with
  | nil => intro st tid2 t2 h; exact ⟨t2, h, le_refl _⟩
  | cons a rest ih =>
      intro st tid2 t2 h
      simp only [List.foldl_cons] at h
      obtain ⟨tmid, h1, h2⟩ := ih _ _ _ h
      obtain ⟨t1, h3, h4⟩ := trackerDispose_mono st a tid2 tmid h1
      exact ⟨t1, h3, le_trans h2 h4⟩

theorem foldDispose_disposed (tids : List Nat) : ∀ (st : EMState) (tid : Nat), tid ∈ tids →
    ∀ t, assocGet st.trackers tid = some t →
    ∃ t', assocGet (tids.foldl trackerDispose st).trackers tid = some t' ∧
      t'.count = (if 0 < t.count then 0 else t.count) ∧
      t'.captureLookups = [] ∧ t'.bubbleLookups = [] := by
  induction tids with
  | nil => intro st tid h; cases h
  | cons a rest ih =>
      intro st tid hmem t hget
      simp only [List.foldl_cons]
      by_cases hea : tid = a
      · subst hea
        have hgetd := trackerDispose_self st tid t hget
        by_cases hmem2 : tid ∈ rest
        · obtain ⟨t', h1, h2, h3, h4⟩ := ih _ _ hmem2 _ hgetd
          refine ⟨t', h1, ?_, h3, h4⟩
          rw [h2]
          show (if 0 < (if 0 < t.count then 0 else t.count) then 0
            else (if 0 < t.count then 0 else t.count)) = _
          by_cases hpos : 0 < t.count
          · simp only [if_pos hpos]
            norm_num
          · simp only [if_neg hpos]
        · rw [foldDispose_other rest _ _ hmem2]
          exact ⟨_, hgetd, rfl, rfl, rfl⟩
      · have hget2 : assocGet (trackerDispose st a).trackers tid = some t := by
          rw [trackerDispose_other st a tid hea]
          exact hget
        have hmem2 : tid ∈ rest := by
          rcases List.mem_cons.mp hmem with h | h
          · exact absurd h hea
          · exact h
        exact ih _ _ hmem2 _ hget2

theorem registered_mem_tids (st : EMState) (tid : Nat) (en : String) (pub : Nat)
    (tm : List (Nat × Nat)) (hm : assocGet st.trackerMaps en = some tm)
    (hp : assocGet tm pub = some tid) : tid ∈ registeredTids st := by
  unfold registeredTids
  rw [List.mem_flatMap]
  exact ⟨(en, tm), assocGet_mem hm, List.mem_map.mpr ⟨(pub, tid), assocGet_mem hp, rfl⟩⟩

theorem foldDispose_inv (tids : List Nat) : ∀ st : EMState, EMInv st →
    EMInv (tids.foldl trackerDispose st) := by
  induction tids with
  | nil => intro st h; exact h
  | cons a rest ih =>
      intro st h
      simp only [List.foldl_cons]
      exact ih _ (inv_trackerDispose st a h)

theorem foldDispose_counts (st : EMState) (hinv : EMInv st) :
    ∀ tid t', assocGet ((registeredTids st).foldl trackerDispose st).trackers tid = some t' →
      t'.count ≤ 0 := by
  intro tid t' hget'
  by_contra hpos
  push_neg at hpos
  obtain ⟨t1, hget1, hle⟩ := foldDispose_mono _ _ _ _ hget'
  have hpos1 : 0 < t1.count := by omega
  obtain ⟨tm, hm, hp⟩ := hinv.2.2.1 tid t1 hget1 hpos1
  have hmem := registered_mem_tids st tid t1.eventName t1.publisher tm hm hp
  obtain ⟨t2, h1, h2, _, _⟩ := foldDispose_disposed _ _ _ hmem _ hget1
  rw [hget'] at h1
  injection h1 with h1
  rw [← h1, if_pos hpos1] at h2
  omega

theorem foldDispose_native_nil (st : EMState) (hinv : EMInv st) :
    ((registeredTids st).foldl trackerDispose st).native = [] := by
  have hinvF := foldDispose_inv (registeredTids st) st hinv
  rw [List.eq_nil_iff_forall_not_mem]
  intro ns hns
  obtain ⟨t, hget⟩ := hinvF.2.1.1 ns hns
  have hcount := foldDispose_counts st hinv ns.trackerId t hget
  have hnat := hinvF.2.1.2 ns.trackerId t hget
  rw [if_neg (by omega : ¬ (0 : Int) < t.count)] at hnat
  have hmemf : ns ∈ natFor ((registeredTids st).foldl trackerDispose st) ns.trackerId := by
    unfold natFor
    rw [List.mem_filter]
    exact ⟨hns, by simp⟩
  rw [hnat] at hmemf
  cases hmemf

theorem assocGet_map_clear {l : List (String × List (Nat × Nat))} {en : String}
    {tm : List (Nat × Nat)}
    (h : assocGet (l.map (fun p => (p.1, ([] : List (Nat × Nat))))) en = some tm) :
    tm = [] := by
  induction l with
  | nil => cases h
  | cons p rest ih =>
      simp only [List.map_cons] at h
      by_cases he : p.1 = en
      · rw [he, assocGet_cons_self] at h
        injection h with h
        exact h.symm
      · rw [assocGet_cons_ne _ _ he] at h
        exact ih h

theorem inv_emDispose (st : EMState) (hinv : EMInv st) : EMInv (emDispose st) := by
  have hinvF := foldDispose_inv (registeredTids st) st hinv
  have hcounts := foldDispose_counts st hinv
  obtain ⟨hfr, ⟨hn1, hn2⟩, hrg, hmp⟩ := hinvF
  simp only [emDispose]
  refine ⟨hfr, ⟨hn1, hn2⟩, ?_, ?_⟩
  · intro tid t hget hpos
    have := hcounts tid t hget
    exact absurd hpos (by omega)
  · intro en tm hm pub tid hp
    have htm := assocGet_map_clear hm
    subst htm
    cases hp

theorem inv_reachable (st : EMState) (h : Reachable st) : EMInv st := by
  induction h with
  | empty =>
      refine ⟨?_, ⟨?_, ?_⟩, ?_, ?_⟩
      · intro p hp
        cases hp
      · intro ns hns
        cases hns
      · intro tid t hget
        cases hget
      · intro tid t hget
        cases hget
      · intro en tm hm
        cases hm
  | add st h pub target en l opts ih => exact inv_addEventListener st pub target en l opts ih
  | disp st h s ih => exact inv_subDispose st s ih
  | emdisp st h ih => exact inv_emDispose st ih

/-- Claim C7: after `EventManager.dispose()` on any reachable manager state,
zero native subscriptions remain attached; every per-event tracker map is
cleared; and every previously registered tracker is force-disposed: its
per-target lookup tables are cleared and its count is reset to zero when it
was positive (left unchanged otherwise, with its native listener removed in
the positive case — subsumed by the empty native list). -/
theorem em_dispose_teardown (st : EMState) (h : Reachable st) :
    (emDispose st).native = [] ∧
    (∀ p ∈ (emDispose st).trackerMaps, p.2 = ([] : List (Nat × Nat))) ∧
    (∀ tid ∈ registeredTids st, ∀ t, assocGet st.trackers tid = some t →
      ∃ t', assocGet (emDispose st).trackers tid = some t' ∧
        t'.count = (if 0 < t.count then 0 else t.count) ∧
        t'.captureLookups = [] ∧ t'.bubbleLookups = []) := by
  have hinv := inv_reachable st h
  refine ⟨?_, ?_, ?_⟩
  · show ((registeredTids st).foldl trackerDispose st).native = []
    exact foldDispose_native_nil st hinv
  · intro p hp
    have hp' : p ∈ ((registeredTids st).foldl trackerDispose st).trackerMaps.map
        (fun q => (q.1, ([] : List (Nat × Nat)))) := hp
    obtain ⟨q, _, hq⟩ := List.mem_map.mp hp'
    rw [← hq]
  · intro tid hmem t hget
    exact foldDispose_disposed (registeredTids st) st tid hmem t hget

theorem em_dispose_teardown_witness :
    (emDispose (addEventListener emEmpty 0 1 "click" (EvtListener.fn id) none).1).native = [] ∧
    (∀ p ∈ (emDispose (addEventListener emEmpty 0 1 "click"
        (EvtListener.fn id) none).1).trackerMaps,
      p.2 = ([] : List (Nat × Nat))) ∧
    (∀ tid ∈ registeredTids (addEventListener emEmpty 0 1 "click" (EvtListener.fn id) none).1,
      ∀ t, assocGet (addEventListener emEmpty 0 1 "click"
          (EvtListener.fn id) none).1.trackers tid = some t →
      ∃ t', assocGet (emDispose (addEventListener emEmpty 0 1 "click"
          (EvtListener.fn id) none).1).trackers tid = some t' ∧
        t'.count = (if 0 < t.count then 0 else t.count) ∧
        t'.captureLookups = [] ∧ t'.bubbleLookups = []) :=
  em_dispose_teardown _ (Reachable.add emEmpty Reachable.empty 0 1 "click"
    (EvtListener.fn id) none)

end Aurelia
